import Mathlib

/-!
# Verification of the adaptive-sps-storm predictor ensemble and bandit selector

Shallow embedding of the Go sources `internal/predictive/mab.go` and
`internal/predictive/prediction.go` of the repository
`dwladdimiroc/adaptive-sps-storm`, together with the second (strict,
single-open-decision) variant of the bandit state machine found in the
repository.

Modelling conventions:
* `float64` values that are only combined with field operations and order
  comparisons are modelled as `ℚ`; the two places where the code calls
  `math.Sqrt` / `math.Log` (the UCB bonus and the RMSE) are modelled over `ℝ`
  with `Real.sqrt` / `Real.log`.
* `time.Time` / `time.Duration` are modelled as nanosecond counts in `ℕ`.
* Go maps keyed by strings (`Q`, `N`) are modelled as total functions with the
  Go zero-value default; the `Pending` map is modelled as an association list
  with insert-overwrite and delete.
* The `rand.Rand` generator is modelled as an oracle: two streams of
  pre-drawn values together with cursor indices in the state.
* A Go `panic` (out-of-range slice index) is modelled by `Option`, `none`
  standing for the panic.
-/

set_option autoImplicit false

namespace SpsStorm

/-! ## Shared configuration types (identical in both bandit variants) -/

inductive Algorithm where
  | ucb
  | epsilon
deriving DecidableEq, Repr

structure Bounds where
  min : ℚ
  max : ℚ
deriving DecidableEq, Repr

structure RewardWeights where
  wLatency : ℚ
  wDegrade : ℚ
  wSaving : ℚ
deriving DecidableEq, Repr

structure RewardNormBounds where
  latency : Bounds
  degrade : Bounds
  saving : Bounds
deriving DecidableEq, Repr

structure BanditSelectorConfig where
  algorithm : Algorithm
  epsilon : ℚ
  C : ℚ
  alpha : ℚ
  gamma : ℚ
  useAlpha : Bool
  cooldownWindows : ℕ
  decisionPeriod : ℕ
  topK : ℕ
  weights : RewardWeights
  normBounds : RewardNormBounds
  randomSeed : ℤ
  coldStartRound : Bool
deriving DecidableEq, Repr

/-- `clamp01` of mab.go: clamps a value into the `[0, 1]` range. -/
def clamp01 (x : ℚ) : ℚ :=
  if x < 0 then 0 else if 1 < x then 1 else x

/-- `norm01` of mab.go: normalizes a value to `[0,1]` based on the given
bounds; degenerate bounds (`Max <= Min`) yield `0`. -/
def norm01 (x : ℚ) (b : Bounds) : ℚ :=
  if b.max ≤ b.min then 0 else (x - b.min) / (b.max - b.min)

/-- `decisionID` of mab.go: unique decision identifier derived from the
current timestamp (`fmt.Sprintf("dec_%d", now.UnixNano())`). -/
def decisionID (now : ℕ) : String := "dec_" ++ toString now

/-- `pendingDecision` of mab.go (the part_000 variant carries the same
fields, leaving `CooldownUntil` at its zero value). -/
structure PendingDecision where
  decisionID : String
  chosenModel : String
  madeAt : ℕ
  cooldownUntil : ℕ
deriving DecidableEq, Repr

/-! ### Association-list model of the Go `Pending` map -/

/-- Lookup of a key in the pending map. -/
def pendingLookup : List (String × PendingDecision) → String → Option PendingDecision
  | [], _ => none
  | (k, p) :: rest, id => if k = id then some p else pendingLookup rest id

/-- Deletion of a key from the pending map (`delete(Bandit.Pending, id)`). -/
def pendingErase (l : List (String × PendingDecision)) (id : String) :
    List (String × PendingDecision) :=
  l.filter (fun e => e.1 != id)

/-- Insert-overwrite into the pending map (`Bandit.Pending[id] = p`). -/
def pendingInsert (l : List (String × PendingDecision)) (id : String)
    (p : PendingDecision) : List (String × PendingDecision) :=
  (id, p) :: pendingErase l id

@[simp] theorem pendingLookup_nil (id : String) : pendingLookup [] id = none := rfl

theorem pendingLookup_erase_self (l : List (String × PendingDecision)) (id : String) :
    pendingLookup (pendingErase l id) id = none := by
  induction l with
  | nil => rfl
  | cons e rest ih =>
    by_cases h : e.1 = id
    · simpa [pendingErase, List.filter_cons, h] using ih
    · simpa [pendingErase, List.filter_cons, h, pendingLookup] using ih

theorem pendingLookup_erase_ne (l : List (String × PendingDecision)) (id id' : String)
    (h : id' ≠ id) : pendingLookup (pendingErase l id) id' = pendingLookup l id' := by
  induction l with
  | nil => rfl
  | cons e rest ih =>
    by_cases he : e.1 = id
    · have hid : ¬ id = id' := fun hc => h hc.symm
      simp [pendingErase, List.filter_cons, he, pendingLookup, hid] at ih ⊢
      exact ih
    · by_cases he' : e.1 = id'
      · simp [pendingErase, List.filter_cons, he, pendingLookup, he', h]
      · simp [pendingErase, List.filter_cons, he, pendingLookup, he'] at ih ⊢
        exact ih

@[simp] theorem pendingLookup_insert_self (l : List (String × PendingDecision))
    (id : String) (p : PendingDecision) :
    pendingLookup (pendingInsert l id p) id = some p := by
  simp [pendingInsert, pendingLookup]

theorem pendingLookup_insert_ne (l : List (String × PendingDecision))
    (id id' : String) (p : PendingDecision) (h : id' ≠ id) :
    pendingLookup (pendingInsert l id p) id' = pendingLookup l id' := by
  have hne : ¬ id = id' := fun hc => h hc.symm
  rw [pendingInsert, pendingLookup, if_neg hne]
  exact pendingLookup_erase_ne l id id' h

/-! ### First-wins scan with a strict greater-than comparison

The selection loops of `ChooseArm` initialise `best := -inf`, `chosen := ""`
and replace the candidate whenever `score > best`.  Over `ℝ` (no infinities)
the first iteration always replaces, so the loop is the recursion below with
the first element as seed. -/

/-- The body of the Go selection loop, seeded with a current best score and
current chosen model. -/
noncomputable def bestFrom (score : String → ℝ) : ℝ → String → List String → ℝ × String
  | best, chosen, [] => (best, chosen)
  | best, chosen, m :: rest =>
    if best < score m then bestFrom score (score m) m rest
    else bestFrom score best chosen rest

/-- The whole Go selection loop (`best := -inf; chosen := ""`). -/
noncomputable def bestArm (score : String → ℝ) : List String → String
  | [] => ""
  | m :: rest => (bestFrom score (score m) m rest).2

theorem bestFrom_spec (score : String → ℝ) :
    ∀ (l : List String) (b : ℝ) (c : String),
      (bestFrom score b c l = (b, c) ∧ ∀ m ∈ l, score m ≤ b) ∨
      (∃ i, ∃ h : i < l.length,
        bestFrom score b c l = (score (l.get ⟨i, h⟩), l.get ⟨i, h⟩) ∧
        b < score (l.get ⟨i, h⟩) ∧
        (∀ m ∈ l, score m ≤ score (l.get ⟨i, h⟩)) ∧
        ∀ j, ∀ hj : j < i, score (l.get ⟨j, Nat.lt_trans hj h⟩) < score (l.get ⟨i, h⟩)) := by
  intro l
  induction l with
  | nil => intro b c; left; exact ⟨rfl, by simp⟩
  | cons m rest ih =>
    intro b c
    by_cases hlt : b < score m
    · rcases ih (score m) m with ⟨heq, hall⟩ | ⟨i, hi, heq, hbig, hall, hfirst⟩
      · right
        refine ⟨0, by simp, ?_, ?_, ?_, ?_⟩
        · simpa [bestFrom, hlt] using heq
        · simpa using hlt
        · intro x hx
          rcases List.mem_cons.mp hx with rfl | hx
          · simp
          · simpa using hall x hx
        · intro j hj; omega
      · right
        refine ⟨i + 1, by simpa using Nat.succ_lt_succ hi, ?_, ?_, ?_, ?_⟩
        · simpa [bestFrom, hlt] using heq
        · exact lt_trans hlt hbig
        · intro x hx
          rcases List.mem_cons.mp hx with rfl | hx
          · exact le_of_lt (by simpa using hbig)
          · simpa using hall x hx
        · intro j hj
          match j, hj with
          | 0, _ => simpa using hbig
          | j' + 1, hj =>
            have := hfirst j' (by omega)
            simpa using this
    · rcases ih b c with ⟨heq, hall⟩ | ⟨i, hi, heq, hbig, hall, hfirst⟩
      · left
        refine ⟨by simpa [bestFrom, hlt] using heq, ?_⟩
        intro x hx
        rcases List.mem_cons.mp hx with rfl | hx
        · exact le_of_not_lt hlt
        · exact hall x hx
      · right
        refine ⟨i + 1, by simpa using Nat.succ_lt_succ hi, ?_, ?_, ?_, ?_⟩
        · simpa [bestFrom, hlt] using heq
        · simpa using hbig
        · intro x hx
          rcases List.mem_cons.mp hx with rfl | hx
          · exact le_trans (le_of_not_lt hlt) (le_of_lt (by simpa using hbig))
          · simpa using hall x hx
        · intro j hj
          match j, hj with
          | 0, _ =>
            exact lt_of_le_of_lt (le_of_not_lt hlt) (by simpa using hbig)
          | j' + 1, hj =>
            have := hfirst j' (by omega)
            simpa using this

/-- The selection loop returns the first model attaining the maximal score. -/
theorem bestArm_spec (score : String → ℝ) (l : List String) (hne : l ≠ []) :
    ∃ i, ∃ h : i < l.length,
      bestArm score l = l.get ⟨i, h⟩ ∧
      (∀ m ∈ l, score m ≤ score (l.get ⟨i, h⟩)) ∧
      ∀ j, ∀ hj : j < i, score (l.get ⟨j, Nat.lt_trans hj h⟩) < score (l.get ⟨i, h⟩) := by
  match l, hne with
  | m :: rest, _ =>
    rcases bestFrom_spec score rest (score m) m with ⟨heq, hall⟩ | ⟨i, hi, heq, hbig, hall, hfirst⟩
    · refine ⟨0, by simp, ?_, ?_, ?_⟩
      · simp [bestArm, heq]
      · intro x hx
        rcases List.mem_cons.mp hx with rfl | hx
        · simp
        · simpa using hall x hx
      · intro j hj; omega
    · refine ⟨i + 1, by simpa using Nat.succ_lt_succ hi, ?_, ?_, ?_⟩
      · simp [bestArm, heq]
      · intro x hx
        rcases List.mem_cons.mp hx with rfl | hx
        · exact le_of_lt (by simpa using hbig)
        · simpa using hall x hx
      · intro j hj
        match j, hj with
        | 0, _ => simpa using hbig
        | j' + 1, hj =>
          have := hfirst j' (by omega)
          simpa using this

theorem bestArm_mem (score : String → ℝ) (l : List String) (hne : l ≠ []) :
    bestArm score l ∈ l := by
  rcases bestArm_spec score l hne with ⟨i, hi, heq, -⟩
  rw [heq]
  exact List.get_mem l _ _

/-- The UCB score of `ChooseArm`:
`Q[m] + C*math.Sqrt(math.Log(math.Max(1,T))/(N[m]+1))`. -/
noncomputable def ucbScore (C : ℚ) (Q : String → ℚ) (N : String → ℕ) (T : ℕ)
    (m : String) : ℝ :=
  (Q m : ℝ) + (C : ℝ) * Real.sqrt (Real.log (max 1 (T : ℝ)) / ((N m : ℝ) + 1))

/-! ## The cooldown variant: `internal/predictive/mab.go` -/

namespace Mab

/-- `GlobalBanditState` of mab.go. -/
structure GlobalBanditState where
  config : BanditSelectorConfig
  models : List String
  Q : String → ℚ
  N : String → ℕ
  T : ℕ
  pending : List (String × PendingDecision)
  lastDecision : PendingDecision
  hasLast : Bool
  rngF : ℕ → ℚ
  rngN : ℕ → ℕ
  rngFIdx : ℕ
  rngNIdx : ℕ

/-- `InitBandit` of mab.go: fresh state, all `Q`/`N` zero, empty pending map. -/
def InitBandit (models : List String) (cfg : BanditSelectorConfig)
    (rngF : ℕ → ℚ) (rngN : ℕ → ℕ) : GlobalBanditState where
  config := cfg
  models := models
  Q := fun _ => 0
  N := fun _ => 0
  T := 0
  pending := []
  lastDecision := ⟨"", "", 0, 0⟩
  hasLast := false
  rngF := rngF
  rngN := rngN
  rngFIdx := 0
  rngNIdx := 0

/-- The model-selection switch of `ChooseArm` (UCB or ε-greedy); both cases
increment `T` first.  The UCB case scores
`Q[m] + C*sqrt(log(max(1,T))/(N[m]+1))` with the incremented `T`. -/
noncomputable def selectArm (s : GlobalBanditState) : GlobalBanditState × String :=
  match s.config.algorithm with
  | Algorithm.ucb =>
    let s' := { s with T := s.T + 1 }
    (s', bestArm (ucbScore s.config.C s.Q s.N (s.T + 1)) s.models)
  | Algorithm.epsilon =>
    let s' := { s with T := s.T + 1, rngFIdx := s.rngFIdx + 1 }
    if s.rngF s.rngFIdx < s.config.epsilon then
      ({ s' with rngNIdx := s.rngNIdx + 1 },
        s.models.getD (s.rngN s.rngNIdx % s.models.length) "")
    else
      (s', bestArm (fun m => (s.Q m : ℝ)) s.models)

/-- The registration block at the end of `ChooseArm` (also inlined in the
cold-start branch of the Go code, with the same fields set). -/
def registerDecision (s : GlobalBanditState) (chosen : String) (now : ℕ) :
    GlobalBanditState × String × String :=
  let decID := decisionID now
  let cd := now + s.config.cooldownWindows * s.config.decisionPeriod
  let p : PendingDecision := ⟨decID, chosen, now, cd⟩
  ({ s with pending := pendingInsert s.pending decID p,
            lastDecision := p, hasLast := true }, decID, chosen)

/-- `ChooseArm` of mab.go: cooldown reuse, then cold start, then UCB/ε-greedy
selection.  Returns the new state together with `(decisionID, chosenModel)`. -/
noncomputable def ChooseArm (s : GlobalBanditState) (now : ℕ) :
    GlobalBanditState × String × String :=
  if s.hasLast = true ∧ now < s.lastDecision.cooldownUntil then
    let decID := decisionID now
    let p : PendingDecision :=
      ⟨decID, s.lastDecision.chosenModel, now, s.lastDecision.cooldownUntil⟩
    ({ s with pending := pendingInsert s.pending decID p }, decID, p.chosenModel)
  else
    match (if s.config.coldStartRound then s.models.find? (fun m => s.N m == 0) else none) with
    | some m => registerDecision { s with T := s.T + 1 } m now
    | none =>
      let sel := selectArm s
      registerDecision sel.1 sel.2 now

/-- `UpdateOutcome` of mab.go: delayed credit assignment.  Unknown ids are a
no-op; otherwise the decision is removed, the three signals are sanitised and
normalised, the reward is computed and the chosen model's `Q`/`N` updated. -/
def UpdateOutcome (s : GlobalBanditState) (decisionID : String)
    (latencyMs degrade saving : ℚ) : GlobalBanditState :=
  match pendingLookup s.pending decisionID with
  | none => s
  | some p =>
    let pending' := pendingErase s.pending decisionID
    let degrade := clamp01 degrade
    let saving := clamp01 saving
    let latN := clamp01 (norm01 latencyMs s.config.normBounds.latency)
    let degN := clamp01 (norm01 degrade s.config.normBounds.degrade)
    let savN := clamp01 (norm01 saving s.config.normBounds.saving)
    let r := s.config.weights.wLatency * (1 - latN) +
      s.config.weights.wDegrade * (1 - degN) +
      s.config.weights.wSaving * savN
    let m := p.chosenModel
    let oldQ := s.Q m
    let newQ :=
      if s.config.useAlpha then
        let alpha := if s.config.alpha ≤ 0 ∨ 1 < s.config.alpha then (1 : ℚ)/10 else s.config.alpha
        (1 - alpha) * oldQ + alpha * r
      else
        let gamma := if s.config.gamma ≤ 0 ∨ 1 ≤ s.config.gamma then (98 : ℚ)/100 else s.config.gamma
        gamma * oldQ + (1 - gamma) * r
    { s with pending := pending',
             Q := fun x => if x = m then newQ else s.Q x,
             N := fun x => if x = m then s.N x + 1 else s.N x }

end Mab

/-! ## The strict single-open-decision variant (`part_000`)

This variant of the bandit state machine carries `CurrentOpenID`/`HasOpen`,
refuses to open a second decision while one is open, has no cooldown branch
in `ChooseArm`, and guards `UpdateStatsBandit` against empty sample
buffers. -/

namespace Strict

/-- `GlobalBanditState` of part_000 (adds the open-decision fields). -/
structure GlobalBanditState where
  config : BanditSelectorConfig
  models : List String
  Q : String → ℚ
  N : String → ℕ
  T : ℕ
  pending : List (String × PendingDecision)
  lastDecision : PendingDecision
  hasLast : Bool
  currentOpenID : String
  hasOpen : Bool
  rngF : ℕ → ℚ
  rngN : ℕ → ℕ
  rngFIdx : ℕ
  rngNIdx : ℕ

/-- `InitBandit` of part_000. -/
def InitBandit (models : List String) (cfg : BanditSelectorConfig)
    (rngF : ℕ → ℚ) (rngN : ℕ → ℕ) : GlobalBanditState where
  config := cfg
  models := models
  Q := fun _ => 0
  N := fun _ => 0
  T := 0
  pending := []
  lastDecision := ⟨"", "", 0, 0⟩
  hasLast := false
  currentOpenID := ""
  hasOpen := false
  rngF := rngF
  rngN := rngN
  rngFIdx := 0
  rngNIdx := 0

/-- The model-selection switch of part_000's `ChooseArm` (identical to the
mab.go one). -/
noncomputable def selectArm (s : GlobalBanditState) : GlobalBanditState × String :=
  match s.config.algorithm with
  | Algorithm.ucb =>
    let s' := { s with T := s.T + 1 }
    (s', bestArm (ucbScore s.config.C s.Q s.N (s.T + 1)) s.models)
  | Algorithm.epsilon =>
    let s' := { s with T := s.T + 1, rngFIdx := s.rngFIdx + 1 }
    if s.rngF s.rngFIdx < s.config.epsilon then
      ({ s' with rngNIdx := s.rngNIdx + 1 },
        s.models.getD (s.rngN s.rngNIdx % s.models.length) "")
    else
      (s', bestArm (fun m => (s.Q m : ℝ)) s.models)

/-- The registration block of part_000's `ChooseArm`: registers ONE open
decision (no cooldown; `CooldownUntil` stays at its zero value). -/
def registerDecision (s : GlobalBanditState) (chosen : String) (now : ℕ) :
    GlobalBanditState × String × String :=
  let decID := decisionID now
  let p : PendingDecision := ⟨decID, chosen, now, 0⟩
  ({ s with pending := pendingInsert s.pending decID p,
            lastDecision := p, hasLast := true,
            currentOpenID := decID, hasOpen := true }, decID, chosen)

/-- `ChooseArm` of part_000: if a decision is already open, return it
unchanged; otherwise cold start, then UCB/ε-greedy selection. -/
noncomputable def ChooseArm (s : GlobalBanditState) (now : ℕ) :
    GlobalBanditState × String × String :=
  if s.hasOpen = true then
    (s, s.currentOpenID, s.lastDecision.chosenModel)
  else
    match (if s.config.coldStartRound then s.models.find? (fun m => s.N m == 0) else none) with
    | some m => registerDecision { s with T := s.T + 1 } m now
    | none =>
      let sel := selectArm s
      registerDecision sel.1 sel.2 now

/-- `UpdateOutcome` of part_000: as in mab.go (the clamping of `degrade` and
`saving` is written as four explicit `if`s in the Go source, which is the
same function as `clamp01`), plus closing the open decision when its id
matches. -/
def UpdateOutcome (s : GlobalBanditState) (decisionID : String)
    (latencyMs degrade saving : ℚ) : GlobalBanditState :=
  match pendingLookup s.pending decisionID with
  | none => s
  | some p =>
    let pending' := pendingErase s.pending decisionID
    let degrade := clamp01 degrade
    let saving := clamp01 saving
    let latN := clamp01 (norm01 latencyMs s.config.normBounds.latency)
    let degN := clamp01 (norm01 degrade s.config.normBounds.degrade)
    let savN := clamp01 (norm01 saving s.config.normBounds.saving)
    let r := s.config.weights.wLatency * (1 - latN) +
      s.config.weights.wDegrade * (1 - degN) +
      s.config.weights.wSaving * savN
    let m := p.chosenModel
    let oldQ := s.Q m
    let newQ :=
      if s.config.useAlpha then
        let alpha := if s.config.alpha ≤ 0 ∨ 1 < s.config.alpha then (1 : ℚ)/10 else s.config.alpha
        (1 - alpha) * oldQ + alpha * r
      else
        let gamma := if s.config.gamma ≤ 0 ∨ 1 ≤ s.config.gamma then (98 : ℚ)/100 else s.config.gamma
        gamma * oldQ + (1 - gamma) * r
    let s1 := { s with pending := pending',
                       Q := fun x => if x = m then newQ else s.Q x,
                       N := fun x => if x = m then s.N x + 1 else s.N x }
    if s1.hasOpen = true ∧ s1.currentOpenID = decisionID then
      { s1 with hasOpen := false, currentOpenID := "" }
    else s1

/-- `StatsBandit` of part_000: the three outcome-sample buffers. -/
structure StatsBandit where
  savedResources : List ℚ
  throughputDegradation : List ℚ
  latency : List ℚ
deriving DecidableEq, Repr

/-- `UpdateStatsBandit` of part_000: window aggregation and close.  Empty id
or any empty sample buffer is a no-op; otherwise the three buffers are
reduced to their arithmetic means, `UpdateOutcome` is applied, and the
buffers are cleared. -/
def UpdateStatsBandit (s : GlobalBanditState) (samples : StatsBandit)
    (decisionID : String) : GlobalBanditState × StatsBandit :=
  if decisionID = "" then (s, samples)
  else if samples.savedResources.length = 0 ∨
      samples.throughputDegradation.length = 0 ∨
      samples.latency.length = 0 then (s, samples)
  else
    let saved := samples.savedResources.sum / (samples.savedResources.length : ℚ)
    let degr := samples.throughputDegradation.sum / (samples.throughputDegradation.length : ℚ)
    let lat := samples.latency.sum / (samples.latency.length : ℚ)
    (UpdateOutcome s decisionID lat degr saved, ⟨[], [], []⟩)

/-- The reachable bandit states: the initial state and anything obtained by
choosing or closing (window aggregation, `UpdateStatsBandit`, only ever
applies `UpdateOutcome` to the state). -/
inductive Reachable : GlobalBanditState → Prop where
  | init (models : List String) (cfg : BanditSelectorConfig)
      (rngF : ℕ → ℚ) (rngN : ℕ → ℕ) :
      Reachable (InitBandit models cfg rngF rngN)
  | choose {s : GlobalBanditState} (now : ℕ) :
      Reachable s → Reachable (ChooseArm s now).1
  | close {s : GlobalBanditState} (id : String) (latencyMs degrade saving : ℚ) :
      Reachable s → Reachable (UpdateOutcome s id latencyMs degrade saving)

end Strict

/-! ## The prediction ensemble: `internal/predictive/prediction.go`

The external forecasting service (`GetPrediction`) and the basic predictor
(`Simple`, defined elsewhere in the repository) are opaque scoring functions;
they are passed as oracle parameters, exactly as the spec treats them.  The
only part of the monitored topology these functions read is the input-rate
history. -/

namespace Prediction

/-- The part of `storm.Topology` read by the prediction cycle. -/
structure Topology where
  inputRate : List ℤ

/-- `PredictionInput` of prediction.go.  `ErrorEstimation` is a `float64`
written only by `calculateError` (a square root), hence modelled in `ℝ`. -/
structure PredictionInput where
  nameModel : String
  predictedInput : List ℚ
  errorEstimation : ℝ

/-- The nine-model catalog built by `InitPrediction`, in source order; each
forecast buffer starts as `analyze_samples` zeros (`make([]float64, n)`). -/
noncomputable def initCatalog (analyzeSamples : ℕ) : List PredictionInput :=
  [⟨"basic", List.replicate analyzeSamples 0, 0⟩,
   ⟨"linear_regression", List.replicate analyzeSamples 0, 0⟩,
   ⟨"fft", List.replicate analyzeSamples 0, 0⟩,
   ⟨"random_forest", List.replicate analyzeSamples 0, 0⟩,
   ⟨"ann", List.replicate analyzeSamples 0, 0⟩,
   ⟨"svm", List.replicate analyzeSamples 0, 0⟩,
   ⟨"bayesian", List.replicate analyzeSamples 0, 0⟩,
   ⟨"ridge", List.replicate analyzeSamples 0, 0⟩,
   ⟨"sgd", List.replicate analyzeSamples 0, 0⟩]

/-- `InitPrediction` of prediction.go: build the catalog; when the configured
`predictive_model` is not `"multi"`, restrict the list to the (first, and by
name uniqueness only) matching model — when no name matches, the list is left
untouched by the Go loop. -/
noncomputable def InitPrediction (predictiveModel : String) (analyzeSamples : ℕ) :
    List PredictionInput :=
  let preds := initCatalog analyzeSamples
  if predictiveModel ≠ "multi" then
    match preds.find? (fun p => p.nameModel == predictiveModel) with
    | some p => [p]
    | none => preds
  else preds

/-- The training-sample window of `GetPredictionInput`: the last
`prediction_samples` observations (all of them when fewer exist), as floats. -/
def trainSamples (predictionSamples : ℕ) (topology : Topology) : List ℚ :=
  (topology.inputRate.drop (topology.inputRate.length - predictionSamples)).map
    (fun x => (x : ℚ))

/-- `GetPredictionInput` of prediction.go, restricted to the one catalog
entry it mutates (each concurrent task writes only its own index): query the
external service and append a non-empty result to the model's buffer. -/
def getPredictionInputOne (getPrediction : List ℚ → ℕ → String → List ℚ)
    (predictionSamples predictionNumber : ℕ) (topology : Topology)
    (p : PredictionInput) : PredictionInput :=
  let samples := trainSamples predictionSamples topology
  let resultsPrediction := getPrediction samples predictionNumber p.nameModel
  if 0 < resultsPrediction.length then
    { p with predictedInput := p.predictedInput ++ resultsPrediction }
  else p

/-- `PredictInput` of prediction.go.  Single-model configuration bypasses the
fan-out: `"basic"` appends `Simple(topology)` directly, anything else runs
one task for index 0.  The multi-model path appends `Simple(topology)` to
index 0 and runs one task per remaining index (fan-out/join; the tasks share
no state, so the join is their sequential composition).  An empty list on the
multi-model path dereferences `predictions[0]` and panics (`none`). -/
def PredictInput (predictiveModel : String) (simple : Topology → List ℚ)
    (getPrediction : List ℚ → ℕ → String → List ℚ)
    (predictionSamples predictionNumber : ℕ) (topology : Topology)
    (preds : List PredictionInput) : Option (List PredictionInput) :=
  if preds.length = 1 then
    if predictiveModel = "basic" then
      some (preds.map (fun p => { p with predictedInput := p.predictedInput ++ simple topology }))
    else
      some (preds.map (getPredictionInputOne getPrediction predictionSamples predictionNumber topology))
  else
    match preds with
    | [] => none
    | p0 :: rest =>
      some (({ p0 with predictedInput := p0.predictedInput ++ simple topology }) ::
        rest.map (getPredictionInputOne getPrediction predictionSamples predictionNumber topology))

/-! ### The accuracy estimator (`calculateError` / `DeterminatePredictor`) -/

/-- Indexed read of a buffer with a Go `int` index; a negative or too-large
index is an out-of-range slice access, i.e. a panic (`none`). -/
def getZ? {α : Type} (l : List α) (i : ℤ) : Option α :=
  if i < 0 then none else l[i.toNat]?

/-- The inner loop of `calculateError` for one model: sum of squared errors
`(predicted[i] - input[i])²` over the given index list, panicking on the
first out-of-range access. -/
def sumSqErr (pred : List ℚ) (input : List ℤ) : List ℤ → Option ℚ
  | [] => some 0
  | i :: rest =>
    match getZ? pred i, getZ? input i with
    | some p, some a => (sumSqErr pred input rest).map (fun s => (p - (a : ℚ)) ^ 2 + s)
    | _, _ => none

/-- The index window of `calculateError`: `i` from `len(input) - timeWindow`
to `len(input) - 1`, as Go `int`s (possibly negative). -/
def errWindow (inputLen timeWindow : ℕ) : List ℤ :=
  (List.range timeWindow).map (fun j : ℕ => (inputLen : ℤ) - (timeWindow : ℤ) + (j : ℤ))

/-- `calculateError` of prediction.go: for every model, RMSE over the
trailing window of length `analyze_samples + prediction_number`, written into
`ErrorEstimation`; `none` models the out-of-range panic. -/
noncomputable def calculateError (preds : List PredictionInput) (input : List ℤ)
    (timeWindow : ℕ) : Option (List PredictionInput) :=
  match preds with
  | [] => some []
  | p :: rest =>
    match sumSqErr p.predictedInput input (errWindow input.length timeWindow),
        calculateError rest input timeWindow with
    | some e, some rest' =>
      some ({ p with errorEstimation := Real.sqrt ((e : ℝ) / (timeWindow : ℝ)) } :: rest')
    | _, _ => none

/-- The argmin loop of the `"rmse"` branch of `DeterminatePredictor`:
`indexPredictor := 0; minErr := preds[0].ErrorEstimation`, then replace on a
strict less-than comparison. -/
noncomputable def minErrFrom : ℝ → ℕ → ℕ → List PredictionInput → ℝ × ℕ
  | best, idx, _, [] => (best, idx)
  | best, idx, i, p :: rest =>
    if p.errorEstimation < best then minErrFrom p.errorEstimation i (i + 1) rest
    else minErrFrom best idx (i + 1) rest

/-- `DeterminatePredictor` of prediction.go: returns the chosen predictor
index together with the (possibly updated) predictions list; `none` models
the panics of the `"rmse"` branch (out-of-range in `calculateError`, or
`predictions[0]` on an empty list).  `randValue` is the oracle for the single
`rand.Float64()` draw of the offline-table branches. -/
noncomputable def DeterminatePredictor (selectorModel dataset : String)
    (analyzeSamples predictionNumber : ℕ) (randValue : ℚ)
    (preds : List PredictionInput) (input : List ℤ) :
    Option (ℕ × List PredictionInput) :=
  if preds.length = 1 then
    some (0, preds)
  else if selectorModel = "rmse" then
    match calculateError preds input (analyzeSamples + predictionNumber) with
    | none => none
    | some preds' =>
      match preds' with
      | [] => none
      | p0 :: rest => some ((minErrFrom p0.errorEstimation 0 1 rest).2, preds')
  else if selectorModel = "bandit-greedy" then
    if dataset = "sbac" then
      if 0 < randValue ∧ randValue ≤ 687/1000 then some (4, preds)
      else if 687/1000 < randValue ∧ randValue ≤ 932/1000 then some (6, preds)
      else some (8, preds)
    else if dataset = "dns" then
      if 0 < randValue ∧ randValue ≤ 615/1000 then some (4, preds)
      else if 615/1000 < randValue ∧ randValue ≤ 687/1000 then some (6, preds)
      else some (8, preds)
    else some (0, preds)
  else if selectorModel = "bandit-ucb" then
    if dataset = "sbac" then
      if 0 < randValue ∧ randValue ≤ 687/1000 then some (4, preds)
      else if 687/1000 < randValue ∧ randValue ≤ 932/1000 then some (6, preds)
      else some (8, preds)
    else if dataset = "dns" then
      if 0 < randValue ∧ randValue ≤ 167/1000 then some (4, preds)
      else if 167/1000 < randValue ∧ randValue ≤ 296/1000 then some (6, preds)
      else some (8, preds)
    else some (0, preds)
  else if selectorModel = "bandit-greedy-avg" then
    if 0 < randValue ∧ randValue ≤ 651/1000 then some (4, preds)
    else if 651/1000 < randValue ∧ randValue ≤ 79/100 then some (6, preds)
    else some (8, preds)
  else if selectorModel = "bandit-ucb-avg" then
    if 0 < randValue ∧ randValue ≤ 276/1000 then some (4, preds)
    else if 276/1000 < randValue ∧ randValue ≤ 709/1000 then some (6, preds)
    else some (8, preds)
  else some (0, preds)

end Prediction

/-! ## Spec-side formulations (written from the spec's wording, §4.3)

These restate the reward pipeline the way the spec describes it, to be
compared against the embedded code. -/

/-- Clamping to `[0,1]`, as the spec words it. -/
def specClamp01 (x : ℚ) : ℚ := max 0 (min 1 x)

/-- The spec's normalization: `(x − min)/(max − min)` against the bounds,
then clamped to `[0,1]`; a metric whose bounds satisfy `max ≤ min` is
normalized to `0`. -/
def specNorm (x : ℚ) (b : Bounds) : ℚ :=
  if b.max ≤ b.min then 0 else specClamp01 ((x - b.min) / (b.max - b.min))

/-- The spec's reward: degrade and saving are first clamped to `[0,1]`, each
metric is normalized, and
`r = w_latency·(1 − latencyNorm) + w_degrade·(1 − degradeNorm) + w_saving·savingNorm`. -/
def specReward (cfg : BanditSelectorConfig) (latency degrade saving : ℚ) : ℚ :=
  let latN := specNorm latency cfg.normBounds.latency
  let degN := specNorm (specClamp01 degrade) cfg.normBounds.degrade
  let savN := specNorm (specClamp01 saving) cfg.normBounds.saving
  cfg.weights.wLatency * (1 - latN) + cfg.weights.wDegrade * (1 - degN) +
    cfg.weights.wSaving * savN

/-- The spec's Q-update: EMA form `Q ← (1−α)·Q + α·r` with `α` replaced by
`0.1` when outside `(0,1]`, or discounted form `Q ← γ·Q + (1−γ)·r` with `γ`
replaced by `0.98` when outside `(0,1)`, selected by the configuration flag. -/
def specQNext (cfg : BanditSelectorConfig) (q r : ℚ) : ℚ :=
  if cfg.useAlpha then
    let a := if 0 < cfg.alpha ∧ cfg.alpha ≤ 1 then cfg.alpha else (1 : ℚ)/10
    (1 - a) * q + a * r
  else
    let g := if 0 < cfg.gamma ∧ cfg.gamma < 1 then cfg.gamma else (98 : ℚ)/100
    g * q + (1 - g) * r

theorem specClamp01_eq_clamp01 (x : ℚ) : specClamp01 x = clamp01 x := by
  unfold specClamp01 clamp01
  split_ifs with h1 h2
  · rw [min_eq_right (by linarith : x ≤ 1)]
    exact max_eq_left (le_of_lt h1)
  · rw [min_eq_left (le_of_lt h2)]
    norm_num
  · rw [min_eq_right (not_lt.mp h2)]
    exact max_eq_right (not_lt.mp h1)

theorem specNorm_eq_clamp_norm (x : ℚ) (b : Bounds) :
    specNorm x b = clamp01 (norm01 x b) := by
  unfold specNorm norm01
  split_ifs with h
  · norm_num [clamp01]
  · exact specClamp01_eq_clamp01 _

theorem reward_code_eq (cfg : BanditSelectorConfig) (lat deg sav : ℚ) :
    cfg.weights.wLatency * (1 - clamp01 (norm01 lat cfg.normBounds.latency)) +
      cfg.weights.wDegrade * (1 - clamp01 (norm01 (clamp01 deg) cfg.normBounds.degrade)) +
      cfg.weights.wSaving * clamp01 (norm01 (clamp01 sav) cfg.normBounds.saving) =
    specReward cfg lat deg sav := by
  unfold specReward
  rw [specNorm_eq_clamp_norm, specNorm_eq_clamp_norm, specNorm_eq_clamp_norm,
    specClamp01_eq_clamp01, specClamp01_eq_clamp01]

theorem alpha_default_eq (a : ℚ) :
    (if a ≤ 0 ∨ 1 < a then (1 : ℚ)/10 else a) =
      (if 0 < a ∧ a ≤ 1 then a else (1 : ℚ)/10) := by
  by_cases h : 0 < a ∧ a ≤ 1
  · rw [if_pos h, if_neg]
    push_neg
    exact ⟨h.1, h.2⟩
  · rw [if_neg h, if_pos]
    rcases not_and_or.mp h with h1 | h2
    · exact Or.inl (not_lt.mp h1)
    · exact Or.inr (not_le.mp h2)

theorem gamma_default_eq (g : ℚ) :
    (if g ≤ 0 ∨ 1 ≤ g then (98 : ℚ)/100 else g) =
      (if 0 < g ∧ g < 1 then g else (98 : ℚ)/100) := by
  by_cases h : 0 < g ∧ g < 1
  · rw [if_pos h, if_neg]
    push_neg
    exact ⟨h.1, h.2⟩
  · rw [if_neg h, if_pos]
    rcases not_and_or.mp h with h1 | h2
    · exact Or.inl (not_lt.mp h1)
    · exact Or.inr (not_lt.mp h2)

theorem qnext_code_eq (cfg : BanditSelectorConfig) (q r : ℚ) :
    (if cfg.useAlpha then
        (1 - if cfg.alpha ≤ 0 ∨ 1 < cfg.alpha then (1 : ℚ)/10 else cfg.alpha) * q +
          (if cfg.alpha ≤ 0 ∨ 1 < cfg.alpha then (1 : ℚ)/10 else cfg.alpha) * r
      else
        (if cfg.gamma ≤ 0 ∨ 1 ≤ cfg.gamma then (98 : ℚ)/100 else cfg.gamma) * q +
          (1 - if cfg.gamma ≤ 0 ∨ 1 ≤ cfg.gamma then (98 : ℚ)/100 else cfg.gamma) * r) =
      specQNext cfg q r := by
  unfold specQNext
  rw [alpha_default_eq, gamma_default_eq]

/-! ## Example states used by the concrete witnesses -/

/-- `BanditDefaultConfig` of mab.go (0.1 etc. as exact rationals). -/
def exCfg : BanditSelectorConfig where
  algorithm := Algorithm.ucb
  epsilon := 1/10
  C := 2
  alpha := 1/10
  gamma := 98/100
  useAlpha := true
  cooldownWindows := 2
  decisionPeriod := 5
  topK := 5
  weights := ⟨34/100, 33/100, 33/100⟩
  normBounds := ⟨⟨50, 500⟩, ⟨0, 1/4⟩, ⟨0, 1/2⟩⟩
  randomSeed := 42
  coldStartRound := true

/-- A freshly initialised cooldown-variant state over three models. -/
def exState : Mab.GlobalBanditState :=
  Mab.InitBandit ["A", "B", "C"] exCfg (fun _ => 0) (fun _ => 0)

/-- The example state with one pending decision for model `"A"`. -/
def exPending : Mab.GlobalBanditState :=
  { exState with pending := [("dec_1", ⟨"dec_1", "A", 1, 11⟩)] }

/-! ## C2: closing an unknown, stale, or already-closed id is a no-op -/

/-- C2: for every bandit state and every id not present in the pending map,
`UpdateOutcome` leaves the whole state (in particular `Q`, `N`, `T` and the
pending set) unchanged; and closing the same id twice leaves the state —
hence `Q` and `N` — unchanged after the second call. -/
theorem updateOutcome_absent_noop_and_idempotent :
    (∀ (s : Mab.GlobalBanditState) (id : String) (latencyMs degrade saving : ℚ),
      pendingLookup s.pending id = none →
      Mab.UpdateOutcome s id latencyMs degrade saving = s) ∧
    (∀ (s : Mab.GlobalBanditState) (id : String) (l d v l' d' v' : ℚ),
      Mab.UpdateOutcome (Mab.UpdateOutcome s id l d v) id l' d' v' =
        Mab.UpdateOutcome s id l d v) := by
  have habsent : ∀ (s : Mab.GlobalBanditState) (id : String) (l d v : ℚ),
      pendingLookup s.pending id = none → Mab.UpdateOutcome s id l d v = s := by
    intro s id l d v h
    unfold Mab.UpdateOutcome
    rw [h]
  refine ⟨habsent, ?_⟩
  intro s id l d v l' d' v'
  cases h : pendingLookup s.pending id with
  | none =>
    rw [habsent s id l d v h, habsent s id l' d' v' h]
  | some p =>
    have hpend : (Mab.UpdateOutcome s id l d v).pending = pendingErase s.pending id := by
      unfold Mab.UpdateOutcome
      rw [h]
    exact habsent _ id l' d' v' (by rw [hpend]; exact pendingLookup_erase_self _ _)

/-- Witness for C2 at concrete inputs: closing an id that was never opened
leaves the example state untouched, and a double close is absorbed. -/
theorem updateOutcome_absent_noop_witness :
    Mab.UpdateOutcome exState "dec_1" 100 (1/20) (1/5) = exState ∧
    Mab.UpdateOutcome (Mab.UpdateOutcome exPending "dec_1" 100 (1/20) (1/5))
        "dec_1" 7 7 7 =
      Mab.UpdateOutcome exPending "dec_1" 100 (1/20) (1/5) :=
  ⟨updateOutcome_absent_noop_and_idempotent.1 exState "dec_1" 100 (1/20) (1/5) rfl,
   updateOutcome_absent_noop_and_idempotent.2 exPending "dec_1" 100 (1/20) (1/5) 7 7 7⟩

/-! ## C3: closing a known id updates exactly the chosen model -/

/-- C3: when the id is pending, `UpdateOutcome` gives the chosen model the
spec's reward (clamping, `(x − min)/(max − min)` normalization with the
degenerate-bounds-to-0 policy, weighted combination) through the spec's
EMA/discounted update with out-of-range parameters replaced by their
defaults, increments the chosen model's `N` by one, leaves every other
model's `Q`/`N` (and `T`, and every other pending id) unchanged, and removes
the decision from the pending set. -/
theorem updateOutcome_known_id_spec (s : Mab.GlobalBanditState) (id : String)
    (p : PendingDecision) (latencyMs degrade saving : ℚ)
    (h : pendingLookup s.pending id = some p) :
    (Mab.UpdateOutcome s id latencyMs degrade saving).Q p.chosenModel =
      specQNext s.config (s.Q p.chosenModel)
        (specReward s.config latencyMs degrade saving) ∧
    (Mab.UpdateOutcome s id latencyMs degrade saving).N p.chosenModel =
      s.N p.chosenModel + 1 ∧
    (∀ m, m ≠ p.chosenModel →
      (Mab.UpdateOutcome s id latencyMs degrade saving).Q m = s.Q m ∧
      (Mab.UpdateOutcome s id latencyMs degrade saving).N m = s.N m) ∧
    pendingLookup (Mab.UpdateOutcome s id latencyMs degrade saving).pending id = none ∧
    (∀ id', id' ≠ id →
      pendingLookup (Mab.UpdateOutcome s id latencyMs degrade saving).pending id' =
        pendingLookup s.pending id') ∧
    (Mab.UpdateOutcome s id latencyMs degrade saving).T = s.T := by
  refine ⟨?_, ?_, ?_, ?_, ?_, ?_⟩
  · unfold Mab.UpdateOutcome
    rw [h]
    dsimp only
    rw [if_pos rfl, ← reward_code_eq s.config latencyMs degrade saving,
      ← qnext_code_eq s.config (s.Q p.chosenModel)]
  · unfold Mab.UpdateOutcome
    rw [h]
    simp
  · intro m hm
    unfold Mab.UpdateOutcome
    rw [h]
    simp [hm]
  · unfold Mab.UpdateOutcome
    rw [h]
    exact pendingLookup_erase_self _ _
  · intro id' hid
    unfold Mab.UpdateOutcome
    rw [h]
    exact pendingLookup_erase_ne _ _ _ hid
  · unfold Mab.UpdateOutcome
    rw [h]

/-- Witness for C3 at the spec §8 example: closing `"dec_1"` (model `"A"`,
latency 100, degrade 0.05, saving 0.2) on the example pending state. -/
theorem updateOutcome_known_id_spec_witness :
    pendingLookup exPending.pending "dec_1" = some ⟨"dec_1", "A", 1, 11⟩ ∧
    ((Mab.UpdateOutcome exPending "dec_1" 100 (1/20) (1/5)).Q "A" =
        specQNext exPending.config (exPending.Q "A")
          (specReward exPending.config 100 (1/20) (1/5)) ∧
      (Mab.UpdateOutcome exPending "dec_1" 100 (1/20) (1/5)).N "A" =
        exPending.N "A" + 1 ∧
      (∀ m, m ≠ "A" →
        (Mab.UpdateOutcome exPending "dec_1" 100 (1/20) (1/5)).Q m = exPending.Q m ∧
        (Mab.UpdateOutcome exPending "dec_1" 100 (1/20) (1/5)).N m = exPending.N m) ∧
      pendingLookup (Mab.UpdateOutcome exPending "dec_1" 100 (1/20) (1/5)).pending "dec_1" = none ∧
      (∀ id', id' ≠ "dec_1" →
        pendingLookup (Mab.UpdateOutcome exPending "dec_1" 100 (1/20) (1/5)).pending id' =
          pendingLookup exPending.pending id') ∧
      (Mab.UpdateOutcome exPending "dec_1" 100 (1/20) (1/5)).T = exPending.T) :=
  ⟨rfl, updateOutcome_known_id_spec exPending "dec_1" ⟨"dec_1", "A", 1, 11⟩ 100 (1/20) (1/5) rfl⟩

/-- Numeric check of the spec §8 example: with the default weights, default
bounds and α = 0.1, the reward is 0.69822... and `Q("A")` moves from 0 to
0.069822..., computed on the embedded code. -/
theorem updateOutcome_spec_example_value :
    (Mab.UpdateOutcome exPending "dec_1" 100 (1/20) (1/5)).Q "A" = 1571/22500 ∧
    (Mab.UpdateOutcome exPending "dec_1" 100 (1/20) (1/5)).N "A" = 1 := by
  constructor
  · norm_num [Mab.UpdateOutcome, exPending, exState, exCfg, Mab.InitBandit,
      pendingLookup, clamp01, norm01]
  · norm_num [Mab.UpdateOutcome, exPending, exState, exCfg, Mab.InitBandit,
      pendingLookup]

/-! ## C7: empty outcome-sample buffers leave the window open -/

/-- C7: at window close, if any of the three sample buffers is empty the
reduction is a no-op (state and buffers unchanged, so the decision stays in
the pending set); only with a non-empty id and all three buffers non-empty
are the arithmetic means computed, `UpdateOutcome` applied to them, and the
buffers cleared. -/
theorem updateStatsBandit_empty_noop (s : Strict.GlobalBanditState)
    (samples : Strict.StatsBandit) (decId : String) :
    ((samples.savedResources = [] ∨ samples.throughputDegradation = [] ∨
        samples.latency = []) →
      Strict.UpdateStatsBandit s samples decId = (s, samples)) ∧
    (decId ≠ "" → samples.savedResources ≠ [] → samples.throughputDegradation ≠ [] →
      samples.latency ≠ [] →
      Strict.UpdateStatsBandit s samples decId =
        (Strict.UpdateOutcome s decId
            (samples.latency.sum / (samples.latency.length : ℚ))
            (samples.throughputDegradation.sum / (samples.throughputDegradation.length : ℚ))
            (samples.savedResources.sum / (samples.savedResources.length : ℚ)),
          ⟨[], [], []⟩)) := by
  constructor
  · intro hempty
    unfold Strict.UpdateStatsBandit
    by_cases hid : decId = ""
    · rw [if_pos hid]
    · rw [if_neg hid, if_pos]
      rcases hempty with h | h | h <;> simp [h]
  · intro hid h1 h2 h3
    unfold Strict.UpdateStatsBandit
    rw [if_neg hid, if_neg]
    push_neg
    exact ⟨fun hc => absurd (List.length_eq_zero.mp hc) h1,
      fun hc => absurd (List.length_eq_zero.mp hc) h2,
      fun hc => absurd (List.length_eq_zero.mp hc) h3⟩

/-- Witness for C7 at concrete inputs: an empty latency buffer is a no-op,
and full buffers reduce to their means and clear. -/
theorem updateStatsBandit_empty_noop_witness :
    Strict.UpdateStatsBandit (Strict.InitBandit ["A"] exCfg (fun _ => 0) (fun _ => 0))
        ⟨[1/2], [1/4], []⟩ "dec_1" =
      (Strict.InitBandit ["A"] exCfg (fun _ => 0) (fun _ => 0), ⟨[1/2], [1/4], []⟩) ∧
    Strict.UpdateStatsBandit (Strict.InitBandit ["A"] exCfg (fun _ => 0) (fun _ => 0))
        ⟨[1/2], [1/4], [100, 200]⟩ "dec_1" =
      (Strict.UpdateOutcome (Strict.InitBandit ["A"] exCfg (fun _ => 0) (fun _ => 0))
          "dec_1" (((100 : ℚ) + (200 + 0)) / 2) ((1/4 + 0) / 1) ((1/2 + 0) / 1),
        ⟨[], [], []⟩) :=
  ⟨(updateStatsBandit_empty_noop _ _ _).1 (Or.inr (Or.inr rfl)),
   (updateStatsBandit_empty_noop _ _ _).2 (by decide) (by decide) (by decide) (by decide)⟩

/-! ## C1: at most one open decision; re-asking while open is the identity -/

/-- The open-decision invariant of the strict variant: while a decision is
open, the pending map holds it at `CurrentOpenID` and it is the last
decision taken. -/
def OpenInv (s : Strict.GlobalBanditState) : Prop :=
  s.hasOpen = true →
    pendingLookup s.pending s.currentOpenID = some s.lastDecision

theorem openInv_of_reachable {s : Strict.GlobalBanditState}
    (h : Strict.Reachable s) : OpenInv s := by
  induction h with
  | init models cfg rf rn =>
    intro hopen
    simp [Strict.InitBandit] at hopen
  | choose now hr ih =>
    rename_i s'
    unfold Strict.ChooseArm
    by_cases hopen : s'.hasOpen = true
    · rw [if_pos hopen]
      exact ih
    · rw [if_neg hopen]
      cases hfind : (if s'.config.coldStartRound then
          s'.models.find? (fun m => s'.N m == 0) else none) with
      | some m =>
        intro _
        simp [Strict.registerDecision]
      | none =>
        intro _
        simp [Strict.registerDecision]
  | close id l d v hr ih =>
    rename_i s'
    unfold Strict.UpdateOutcome
    cases hlook : pendingLookup s'.pending id with
    | none => exact ih
    | some p =>
      dsimp only
      by_cases hcl : s'.hasOpen = true ∧ s'.currentOpenID = id
      · rw [if_pos hcl]
        intro hopen
        simp at hopen
      · rw [if_neg hcl]
        intro hopen
        have hne : s'.currentOpenID ≠ id := by
          intro hc
          exact hcl ⟨hopen, hc⟩
        rw [pendingLookup_erase_ne _ _ _ hne]
        exact ih hopen

/-- C1: in every reachable strict-variant state with an open decision,
`ChooseArm` returns the id and chosen model of the open decision (the
pending entry at `CurrentOpenID`) and leaves the entire state — `Q`, `N`,
`T`, pending map and open decision — unchanged, so no new decision is
opened while one is open. -/
theorem chooseArm_open_is_identity (s : Strict.GlobalBanditState) (now : ℕ)
    (hreach : Strict.Reachable s) (hopen : s.hasOpen = true) :
    ∃ p, pendingLookup s.pending s.currentOpenID = some p ∧
      Strict.ChooseArm s now = (s, s.currentOpenID, p.chosenModel) := by
  refine ⟨s.lastDecision, openInv_of_reachable hreach hopen, ?_⟩
  unfold Strict.ChooseArm
  rw [if_pos hopen]

/-- A concrete reachable strict-variant state with an open decision (cold
start chooses `"A"` at time 7). -/
noncomputable def exOpenState : Strict.GlobalBanditState :=
  (Strict.ChooseArm (Strict.InitBandit ["A"] exCfg (fun _ => 0) (fun _ => 0)) 7).1

/-- Witness for C1: the concrete open state is reachable and open, and the
theorem instantiates on it. -/
theorem chooseArm_open_is_identity_witness :
    exOpenState.hasOpen = true ∧
    ∃ p, pendingLookup exOpenState.pending exOpenState.currentOpenID = some p ∧
      Strict.ChooseArm exOpenState 9 = (exOpenState, exOpenState.currentOpenID, p.chosenModel) :=
  ⟨rfl, chooseArm_open_is_identity exOpenState 9
    (Strict.Reachable.choose 7
      (Strict.Reachable.init ["A"] exCfg (fun _ => 0) (fun _ => 0))) rfl⟩

/-! ## C5: UCB1 selection is a first-wins argmax of the UCB score -/

/-- C5: past cooldown and cold start, `ChooseArm` under the UCB algorithm
increments `T` and selects the model maximizing
`score(m) = Q(m) + C·sqrt(ln(max(1,T))/(N(m)+1))` (with `T` the round
counter after its increment for this call), ties broken in favor of the
first model in catalog order: every strictly earlier model has a strictly
smaller score. -/
theorem chooseArm_ucb_selects_argmax (s : Mab.GlobalBanditState) (now : ℕ)
    (halg : s.config.algorithm = Algorithm.ucb)
    (hnr : ¬(s.hasLast = true ∧ now < s.lastDecision.cooldownUntil))
    (hcs : s.config.coldStartRound = true →
      s.models.find? (fun m => s.N m == 0) = none)
    (hne : s.models ≠ []) :
    (Mab.ChooseArm s now).1.T = s.T + 1 ∧
    ∃ i, ∃ h : i < s.models.length,
      (Mab.ChooseArm s now).2.2 = s.models.get ⟨i, h⟩ ∧
      (∀ m ∈ s.models,
        ucbScore s.config.C s.Q s.N (s.T + 1) m ≤
          ucbScore s.config.C s.Q s.N (s.T + 1) (s.models.get ⟨i, h⟩)) ∧
      (∀ j, ∀ hj : j < i,
        ucbScore s.config.C s.Q s.N (s.T + 1) (s.models.get ⟨j, Nat.lt_trans hj h⟩) <
          ucbScore s.config.C s.Q s.N (s.T + 1) (s.models.get ⟨i, h⟩)) := by
  have hscrut : (if s.config.coldStartRound then
      s.models.find? (fun m => s.N m == 0) else none) = none := by
    cases hb : s.config.coldStartRound
    · simp
    · simpa using hcs hb
  unfold Mab.ChooseArm
  rw [if_neg hnr, hscrut]
  unfold Mab.selectArm
  rw [halg]
  dsimp only [Mab.registerDecision]
  exact ⟨rfl, bestArm_spec _ s.models hne⟩

/-- A configuration with cold start disabled (otherwise `BanditDefaultConfig`). -/
def exUcbCfg : BanditSelectorConfig := { exCfg with coldStartRound := false }

/-- A fresh two-model state for the UCB witness. -/
def exUcbState : Mab.GlobalBanditState :=
  Mab.InitBandit ["A", "B"] exUcbCfg (fun _ => 0) (fun _ => 0)

/-- Witness for C5 at a concrete state (two models, `T = 0`, no cooldown, no
cold start). -/
theorem chooseArm_ucb_selects_argmax_witness :
    exUcbState.config.algorithm = Algorithm.ucb ∧
    ¬(exUcbState.hasLast = true ∧ 3 < exUcbState.lastDecision.cooldownUntil) ∧
    exUcbState.models ≠ [] ∧
    ((Mab.ChooseArm exUcbState 3).1.T = exUcbState.T + 1 ∧
      ∃ i, ∃ h : i < exUcbState.models.length,
        (Mab.ChooseArm exUcbState 3).2.2 = exUcbState.models.get ⟨i, h⟩ ∧
        (∀ m ∈ exUcbState.models,
          ucbScore exUcbState.config.C exUcbState.Q exUcbState.N (exUcbState.T + 1) m ≤
            ucbScore exUcbState.config.C exUcbState.Q exUcbState.N (exUcbState.T + 1)
              (exUcbState.models.get ⟨i, h⟩)) ∧
        (∀ j, ∀ hj : j < i,
          ucbScore exUcbState.config.C exUcbState.Q exUcbState.N (exUcbState.T + 1)
              (exUcbState.models.get ⟨j, Nat.lt_trans hj h⟩) <
            ucbScore exUcbState.config.C exUcbState.Q exUcbState.N (exUcbState.T + 1)
              (exUcbState.models.get ⟨i, h⟩))) :=
  ⟨rfl, by decide, by decide,
    chooseArm_ucb_selects_argmax exUcbState 3 rfl (by decide)
      (fun hc => absurd hc (by decide)) (by decide)⟩

/-! ## Completed choose/close cycles (shared by C4 and C6) -/

/-- One completed MAPE cycle per iteration on the cooldown variant:
`ChooseArm` at `times k`, then `UpdateOutcome` on the returned id with the
`k`-th outcome triple.  The log records, per cycle, whether the
cooldown-reuse branch was taken and which model was chosen. -/
noncomputable def runCycles (times : ℕ → ℕ) (outs : ℕ → ℚ × ℚ × ℚ)
    (s : Mab.GlobalBanditState) : ℕ → Mab.GlobalBanditState × List (Bool × String)
  | 0 => (s, [])
  | k + 1 =>
    let prev := runCycles times outs s k
    let reuse : Bool :=
      prev.1.hasLast && decide (times k < prev.1.lastDecision.cooldownUntil)
    let step := Mab.ChooseArm prev.1 (times k)
    (Mab.UpdateOutcome step.1 step.2.1 (outs k).1 (outs k).2.1 (outs k).2.2,
      prev.2 ++ [(reuse, step.2.2)])

/-- From a state with an empty pending map, `ChooseArm` opens exactly one
pending decision for a catalog model, leaves `Q`/`N` untouched, and
increments `T` exactly when the cooldown-reuse branch is not taken. -/
theorem chooseArm_from_closed (s : Mab.GlobalBanditState) (now : ℕ)
    (hne : s.models ≠ []) (hpend : s.pending = [])
    (hlast : s.hasLast = true → s.lastDecision.chosenModel ∈ s.models) :
    ∃ p : PendingDecision,
      p.chosenModel ∈ s.models ∧
      (Mab.ChooseArm s now).2.1 = decisionID now ∧
      (Mab.ChooseArm s now).2.2 = p.chosenModel ∧
      (Mab.ChooseArm s now).1.pending = [(decisionID now, p)] ∧
      (Mab.ChooseArm s now).1.Q = s.Q ∧
      (Mab.ChooseArm s now).1.N = s.N ∧
      (Mab.ChooseArm s now).1.models = s.models ∧
      (Mab.ChooseArm s now).1.config = s.config ∧
      (Mab.ChooseArm s now).1.hasLast = true ∧
      (Mab.ChooseArm s now).1.lastDecision.chosenModel ∈ s.models ∧
      ((s.hasLast && decide (now < s.lastDecision.cooldownUntil)) = true →
        (Mab.ChooseArm s now).1.T = s.T) ∧
      ((s.hasLast && decide (now < s.lastDecision.cooldownUntil)) = false →
        (Mab.ChooseArm s now).1.T = s.T + 1) := by
  by_cases hr : s.hasLast = true ∧ now < s.lastDecision.cooldownUntil
  · refine ⟨⟨decisionID now, s.lastDecision.chosenModel, now, s.lastDecision.cooldownUntil⟩,
      hlast hr.1, ?_⟩
    unfold Mab.ChooseArm
    rw [if_pos hr]
    dsimp only
    refine ⟨rfl, rfl, ?_, rfl, rfl, rfl, rfl, hr.1, hlast hr.1, fun _ => rfl, fun hf => ?_⟩
    · rw [hpend]
      rfl
    · rw [hr.1] at hf
      simp [hr.2] at hf
  · have hflag : (s.hasLast && decide (now < s.lastDecision.cooldownUntil)) = false := by
      cases hl : s.hasLast
      · simp
      · simp only [Bool.true_and, decide_eq_false_iff_not]
        exact fun hlt => hr ⟨hl, hlt⟩
    unfold Mab.ChooseArm
    rw [if_neg hr]
    cases hfind : (if s.config.coldStartRound then
        s.models.find? (fun m => s.N m == 0) else none) with
    | some m =>
      have hm : m ∈ s.models := by
        cases hb : s.config.coldStartRound
        · rw [hb] at hfind
          simp at hfind
        · rw [hb] at hfind
          simp only [if_pos] at hfind
          exact List.mem_of_find?_eq_some hfind
      dsimp only [Mab.registerDecision]
      refine ⟨⟨decisionID now, m, now,
          now + s.config.cooldownWindows * s.config.decisionPeriod⟩,
        hm, rfl, rfl, ?_, rfl, rfl, rfl, rfl, rfl, hm,
        fun ht => absurd ht (by rw [hflag]; exact Bool.false_ne_true), fun _ => rfl⟩
      rw [hpend]
      rfl
    | none =>
      dsimp only
      cases halg : s.config.algorithm with
      | ucb =>
        unfold Mab.selectArm
        rw [halg]
        dsimp only [Mab.registerDecision]
        have hc : bestArm (ucbScore s.config.C s.Q s.N (s.T + 1)) s.models ∈ s.models :=
          bestArm_mem _ _ hne
        refine ⟨⟨decisionID now, bestArm (ucbScore s.config.C s.Q s.N (s.T + 1)) s.models, now,
            now + s.config.cooldownWindows * s.config.decisionPeriod⟩,
          hc, rfl, rfl, ?_, rfl, rfl, rfl, rfl, rfl, hc,
          fun ht => absurd ht (by rw [hflag]; exact Bool.false_ne_true), fun _ => rfl⟩
        rw [hpend]
        rfl
      | epsilon =>
        unfold Mab.selectArm
        rw [halg]
        dsimp only
        by_cases hexp : s.rngF s.rngFIdx < s.config.epsilon
        · rw [if_pos hexp]
          dsimp only [Mab.registerDecision]
          have hidx : s.rngN s.rngNIdx % s.models.length < s.models.length :=
            Nat.mod_lt _ (List.length_pos.mpr hne)
          have hc : s.models.getD (s.rngN s.rngNIdx % s.models.length) "" ∈ s.models := by
            rw [List.getD_eq_get _ _ hidx]
            exact List.get_mem _ _ _
          refine ⟨⟨decisionID now, s.models.getD (s.rngN s.rngNIdx % s.models.length) "", now,
              now + s.config.cooldownWindows * s.config.decisionPeriod⟩,
            hc, rfl, rfl, ?_, rfl, rfl, rfl, rfl, rfl, hc,
            fun ht => absurd ht (by rw [hflag]; exact Bool.false_ne_true), fun _ => rfl⟩
          rw [hpend]
          rfl
        · rw [if_neg hexp]
          dsimp only [Mab.registerDecision]
          have hc : bestArm (fun m => (s.Q m : ℝ)) s.models ∈ s.models :=
            bestArm_mem _ _ hne
          refine ⟨⟨decisionID now, bestArm (fun m => (s.Q m : ℝ)) s.models, now,
              now + s.config.cooldownWindows * s.config.decisionPeriod⟩,
            hc, rfl, rfl, ?_, rfl, rfl, rfl, rfl, rfl, hc,
            fun ht => absurd ht (by rw [hflag]; exact Bool.false_ne_true), fun _ => rfl⟩
          rw [hpend]
          rfl

/-- Closing the single pending decision empties the pending map, bumps the
chosen model's `N`, and leaves `T`, the catalog, the configuration and the
last-decision bookkeeping unchanged. -/
theorem updateOutcome_singleton (s : Mab.GlobalBanditState) (id : String)
    (p : PendingDecision) (l d v : ℚ) (hpend : s.pending = [(id, p)]) :
    (Mab.UpdateOutcome s id l d v).pending = [] ∧
    (Mab.UpdateOutcome s id l d v).N =
      (fun x => if x = p.chosenModel then s.N x + 1 else s.N x) ∧
    (Mab.UpdateOutcome s id l d v).T = s.T ∧
    (Mab.UpdateOutcome s id l d v).models = s.models ∧
    (Mab.UpdateOutcome s id l d v).config = s.config ∧
    (Mab.UpdateOutcome s id l d v).hasLast = s.hasLast ∧
    (Mab.UpdateOutcome s id l d v).lastDecision = s.lastDecision := by
  have hlook : pendingLookup s.pending id = some p := by
    rw [hpend]
    simp [pendingLookup]
  unfold Mab.UpdateOutcome
  rw [hlook]
  dsimp only
  refine ⟨?_, rfl, rfl, rfl, rfl, rfl, rfl⟩
  rw [hpend]
  simp [pendingErase, List.filter_cons]

/-- Bumping `N` at one catalog model bumps the catalog total by one. -/
theorem sum_map_update (N : String → ℕ) (m : String) :
    ∀ l : List String, l.Nodup → m ∈ l →
      (l.map (fun x => if x = m then N x + 1 else N x)).sum = (l.map N).sum + 1 := by
  intro l
  induction l with
  | nil => simp
  | cons a t ih =>
    intro hnd hm
    rcases List.mem_cons.mp hm with rfl | hm'
    · have hnotin : m ∉ t := (List.nodup_cons.mp hnd).1
      have hmap : t.map (fun x => if x = m then N x + 1 else N x) = t.map N := by
        apply List.map_congr_left
        intro x hx
        have hxm : ¬ x = m := fun hc => hnotin (by rw [← hc]; exact hx)
        rw [if_neg hxm]
      simp only [List.map_cons, List.sum_cons, hmap, eq_self_iff_true, if_true]
      omega
    · have hne : a ≠ m := fun hc => (List.nodup_cons.mp hnd).1 (by rw [hc]; exact hm')
      simp only [List.map_cons, List.sum_cons, if_neg hne,
        ih (List.nodup_cons.mp hnd).2 hm']
      omega

/-- The running invariant of completed cycles: pending always returns to
empty, the log length counts the cycles, ΣN equals the number of completed
cycles, and `T` counts exactly the non-cooldown-reuse cycles. -/
theorem runCycles_invariant (models : List String) (cfg : BanditSelectorConfig)
    (rf : ℕ → ℚ) (rn : ℕ → ℕ) (times : ℕ → ℕ) (outs : ℕ → ℚ × ℚ × ℚ)
    (hne : models ≠ []) (hnd : models.Nodup) :
    ∀ M : ℕ,
      (runCycles times outs (Mab.InitBandit models cfg rf rn) M).1.models = models ∧
      (runCycles times outs (Mab.InitBandit models cfg rf rn) M).1.config = cfg ∧
      (runCycles times outs (Mab.InitBandit models cfg rf rn) M).1.pending = [] ∧
      ((runCycles times outs (Mab.InitBandit models cfg rf rn) M).1.hasLast = true →
        (runCycles times outs (Mab.InitBandit models cfg rf rn) M).1.lastDecision.chosenModel
          ∈ models) ∧
      (runCycles times outs (Mab.InitBandit models cfg rf rn) M).2.length = M ∧
      (models.map (runCycles times outs (Mab.InitBandit models cfg rf rn) M).1.N).sum = M ∧
      (runCycles times outs (Mab.InitBandit models cfg rf rn) M).1.T =
        (runCycles times outs (Mab.InitBandit models cfg rf rn) M).2.countP (fun e => !e.1) := by
  intro M
  induction M with
  | zero =>
    refine ⟨rfl, rfl, rfl, ?_, rfl, ?_, rfl⟩
    · intro habs
      simp [runCycles, Mab.InitBandit] at habs
    · simp [runCycles, Mab.InitBandit]
  | succ M ih =>
    obtain ⟨hmodels, hconfig, hpend, hlastmem, hlen, hsum, hT⟩ := ih
    set r := runCycles times outs (Mab.InitBandit models cfg rf rn) M with hrdef
    have hne' : r.1.models ≠ [] := by rw [hmodels]; exact hne
    have hlastmem₀ : r.1.hasLast = true → r.1.lastDecision.chosenModel ∈ r.1.models := by
      rw [hmodels]
      exact hlastmem
    obtain ⟨p, hpmem, hid, hchosen, hpend', hQ, hN, hmodels', hconfig', hlast', hlastmem',
      hTreuse, hTnoreuse⟩ := chooseArm_from_closed r.1 (times M) hne' hpend hlastmem₀
    have hstep : runCycles times outs (Mab.InitBandit models cfg rf rn) (M + 1) =
        (Mab.UpdateOutcome (Mab.ChooseArm r.1 (times M)).1 (Mab.ChooseArm r.1 (times M)).2.1
            (outs M).1 (outs M).2.1 (outs M).2.2,
          r.2 ++ [(r.1.hasLast && decide (times M < r.1.lastDecision.cooldownUntil),
            (Mab.ChooseArm r.1 (times M)).2.2)]) := by
      rw [runCycles]
    rw [hid] at hstep
    obtain ⟨cpend, cN, cT, cmodels, cconfig, chasLast, clast⟩ :=
      updateOutcome_singleton (Mab.ChooseArm r.1 (times M)).1 (decisionID (times M)) p
        (outs M).1 (outs M).2.1 (outs M).2.2 hpend'
    rw [hstep]
    dsimp only
    refine ⟨?_, ?_, cpend, ?_, ?_, ?_, ?_⟩
    · rw [cmodels, hmodels', hmodels]
    · rw [cconfig, hconfig', hconfig]
    · intro _
      rw [clast]
      rw [hmodels] at hlastmem'
      exact hlastmem'
    · simp [hlen]
    · rw [cN, hN]
      have hpmem' : p.chosenModel ∈ models := by rw [← hmodels]; exact hpmem
      rw [sum_map_update r.1.N p.chosenModel models hnd hpmem', hsum]
    · rw [cT]
      cases hflag : (r.1.hasLast && decide (times M < r.1.lastDecision.cooldownUntil)) with
      | true =>
        rw [hTreuse hflag, hT, List.countP_append]
        simp
      | false =>
        rw [hTnoreuse hflag, hT, List.countP_append]
        simp

/-! ## C6: what ΣN actually counts -/

/-- C6 counterexample: one model, cooldown 2 windows of 5; cycle 0 (cold
start, `t=10`) closes normally, cycle 1 (`t=12`, still inside the cooldown)
is a cooldown-reuse — and closing it STILL increments `N`.  After these two
completed cycles ΣN = 2 while only 1 cycle was not a cooldown-reuse, so ΣN
differs from the number of non-reuse cycles. -/
theorem sumN_cooldown_counterexample :
    (["A"].map (runCycles (fun i => 10 + 2 * i) (fun _ => (0, 0, 0))
        (Mab.InitBandit ["A"] exCfg (fun _ => 0) (fun _ => 0)) 2).1.N).sum = 2 ∧
    (runCycles (fun i => 10 + 2 * i) (fun _ => (0, 0, 0))
        (Mab.InitBandit ["A"] exCfg (fun _ => 0) (fun _ => 0)) 2).2.countP
      (fun e => !e.1) = 1 ∧
    ¬((["A"].map (runCycles (fun i => 10 + 2 * i) (fun _ => (0, 0, 0))
        (Mab.InitBandit ["A"] exCfg (fun _ => 0) (fun _ => 0)) 2).1.N).sum =
      (runCycles (fun i => 10 + 2 * i) (fun _ => (0, 0, 0))
          (Mab.InitBandit ["A"] exCfg (fun _ => 0) (fun _ => 0)) 2).2.countP
        (fun e => !e.1)) := by
  refine ⟨?_, ?_, ?_⟩ <;> decide

/-- C6 (amended): after `M` completed choose/close cycles, ΣN over the
catalog equals the total number of completed cycles — cooldown-reuses
included — and it is the round counter `T` that equals the number of cycles
that were not cooldown-reuses. -/
theorem sumN_counts_all_closed_cycles (models : List String)
    (cfg : BanditSelectorConfig) (rf : ℕ → ℚ) (rn : ℕ → ℕ) (times : ℕ → ℕ)
    (outs : ℕ → ℚ × ℚ × ℚ) (hne : models ≠ []) (hnd : models.Nodup) (M : ℕ) :
    (models.map (runCycles times outs (Mab.InitBandit models cfg rf rn) M).1.N).sum = M ∧
    (runCycles times outs (Mab.InitBandit models cfg rf rn) M).2.length = M ∧
    (runCycles times outs (Mab.InitBandit models cfg rf rn) M).1.T =
      (runCycles times outs (Mab.InitBandit models cfg rf rn) M).2.countP (fun e => !e.1) := by
  obtain ⟨-, -, -, -, h5, h6, h7⟩ :=
    runCycles_invariant models cfg rf rn times outs hne hnd M
  exact ⟨h6, h5, h7⟩

/-- Witness for the amended C6 on a concrete three-cycle run. -/
theorem sumN_counts_all_closed_cycles_witness :
    (["A", "B"].map (runCycles (fun i => i) (fun _ => (100, 0, 0))
        (Mab.InitBandit ["A", "B"] exCfg (fun _ => 0) (fun _ => 0)) 3).1.N).sum = 3 ∧
    (runCycles (fun i => i) (fun _ => (100, 0, 0))
        (Mab.InitBandit ["A", "B"] exCfg (fun _ => 0) (fun _ => 0)) 3).2.length = 3 ∧
    (runCycles (fun i => i) (fun _ => (100, 0, 0))
        (Mab.InitBandit ["A", "B"] exCfg (fun _ => 0) (fun _ => 0)) 3).1.T =
      (runCycles (fun i => i) (fun _ => (100, 0, 0))
          (Mab.InitBandit ["A", "B"] exCfg (fun _ => 0) (fun _ => 0)) 3).2.countP
        (fun e => !e.1) :=
  sumN_counts_all_closed_cycles ["A", "B"] exCfg (fun _ => 0) (fun _ => 0)
    (fun i => i) (fun _ => (100, 0, 0)) (by decide) (by decide) 3

/-! ## C4: cold start visits the catalog in order -/

theorem findq_congr {α : Type} (p q : α → Bool) :
    ∀ l : List α, (∀ x ∈ l, p x = q x) → l.find? p = l.find? q := by
  intro l
  induction l with
  | nil => intro _; rfl
  | cons a t ih =>
    intro h
    cases hq : q a with
    | false =>
      rw [List.find?_cons_of_neg _ (by rw [h a (List.mem_cons_self a t)]; simp [hq]),
        List.find?_cons_of_neg _ (by simp [hq])]
      exact ih (fun x hx => h x (List.mem_cons_of_mem a hx))
    | true =>
      rw [List.find?_cons_of_pos _ (by rw [h a (List.mem_cons_self a t)]; exact hq),
        List.find?_cons_of_pos _ hq]

/-- The first element of `l` outside `l.take k` is `l[k]` (`l` duplicate-free). -/
theorem find?_first_unvisited :
    ∀ (k : ℕ) (l : List String) (hk : k < l.length), l.Nodup →
      l.find? (fun m => decide (m ∉ l.take k)) = some (l.get ⟨k, hk⟩) := by
  intro k
  induction k with
  | zero =>
    intro l hk _
    cases l with
    | nil => simp at hk
    | cons a t =>
      rw [@List.find?_cons_of_pos String (fun m => decide (m ∉ (a :: t).take 0)) a t (by simp)]
      rfl
  | succ k ih =>
    intro l hk hnd
    cases l with
    | nil => simp at hk
    | cons a t =>
      rw [@List.find?_cons_of_neg String (fun m => decide (m ∉ (a :: t).take (k + 1))) a t
        (by simp [List.take_succ_cons])]
      have ht : t.find? (fun m => decide (m ∉ (a :: t).take (k + 1))) =
          t.find? (fun m => decide (m ∉ t.take k)) := by
        apply findq_congr
        intro x hx
        have hxa : x ≠ a := fun hc => (List.nodup_cons.mp hnd).1 (by rw [← hc]; exact hx)
        simp [List.take_succ_cons, hxa]
      rw [ht, ih t (by simpa using hk) (List.nodup_cons.mp hnd).2]
      rfl

/-- `l[k]` does not occur among the first `k` elements (`l` duplicate-free). -/
theorem get_not_mem_take {l : List String} (hnd : l.Nodup) (k : ℕ) (hk : k < l.length) :
    l.get ⟨k, hk⟩ ∉ l.take k := by
  intro hmem
  have hnd' : (l.take k ++ l.drop k).Nodup := by
    rw [List.take_append_drop]
    exact hnd
  have hdrop : l.get ⟨k, hk⟩ ∈ l.drop k := by
    rw [List.drop_eq_getElem_cons hk]
    exact List.mem_cons_self _ _
  exact List.disjoint_of_nodup_append hnd' hmem hdrop

/-- The cold-start induction: with cold start enabled, no cooldown
(`CooldownWindows = 0`) and non-decreasing call times, the first `k ≤
|catalog|` completed cycles choose exactly `models.take k`, none of them is
a cooldown-reuse, `T` ends at `k`, and the visit counts mark precisely the
visited prefix. -/
theorem coldStart_invariant (models : List String) (cfg : BanditSelectorConfig)
    (rf : ℕ → ℚ) (rn : ℕ → ℕ) (times : ℕ → ℕ) (outs : ℕ → ℚ × ℚ × ℚ)
    (hnd : models.Nodup) (hcs : cfg.coldStartRound = true)
    (hcw : cfg.cooldownWindows = 0) (hmono : ∀ i, times i ≤ times (i + 1)) :
    ∀ k, k ≤ models.length →
      (runCycles times outs (Mab.InitBandit models cfg rf rn) k).2.map Prod.snd =
        models.take k ∧
      (∀ e ∈ (runCycles times outs (Mab.InitBandit models cfg rf rn) k).2, e.1 = false) ∧
      (runCycles times outs (Mab.InitBandit models cfg rf rn) k).1.T = k ∧
      (runCycles times outs (Mab.InitBandit models cfg rf rn) k).1.config = cfg ∧
      (runCycles times outs (Mab.InitBandit models cfg rf rn) k).1.models = models ∧
      (runCycles times outs (Mab.InitBandit models cfg rf rn) k).1.pending = [] ∧
      (∀ m, (runCycles times outs (Mab.InitBandit models cfg rf rn) k).1.N m =
        if m ∈ models.take k then 1 else 0) ∧
      (k = 0 → (runCycles times outs (Mab.InitBandit models cfg rf rn) k).1.hasLast = false) ∧
      (0 < k → (runCycles times outs (Mab.InitBandit models cfg rf rn) k).1.hasLast = true ∧
        (runCycles times outs
          (Mab.InitBandit models cfg rf rn) k).1.lastDecision.cooldownUntil =
          times (k - 1)) := by
  intro k
  induction k with
  | zero =>
    intro _
    refine ⟨rfl, by simp [runCycles], rfl, rfl, rfl, rfl, ?_, fun _ => rfl, by omega⟩
    intro m
    simp [runCycles, Mab.InitBandit]
  | succ k ih =>
    intro hk1
    have hk : k < models.length := hk1
    obtain ⟨hlog, hflags, hTk, hconfig, hmodels, hpend, hNall, hlast0, hlastpos⟩ :=
      ih (Nat.le_of_lt hk)
    set r := runCycles times outs (Mab.InitBandit models cfg rf rn) k with hrdef
    -- the cooldown-reuse branch is not taken
    have hnr : ¬(r.1.hasLast = true ∧ times k < r.1.lastDecision.cooldownUntil) := by
      cases k with
      | zero =>
        intro hcontra
        rw [hlast0 rfl] at hcontra
        exact Bool.false_ne_true hcontra.1
      | succ k' =>
        intro hcontra
        have := (hlastpos (Nat.succ_pos k')).2
        rw [this] at hcontra
        exact absurd hcontra.2 (not_lt.mpr (by simpa using hmono k'))
    -- the reuse flag recorded in the log is false
    have hflag : (r.1.hasLast && decide (times k < r.1.lastDecision.cooldownUntil)) = false := by
      cases k with
      | zero => rw [hlast0 rfl]; rfl
      | succ k' =>
        rw [(hlastpos (Nat.succ_pos k')).1, (hlastpos (Nat.succ_pos k')).2]
        simp only [Bool.true_and, decide_eq_false_iff_not]
        exact not_lt.mpr (by simpa using hmono k')
    -- the cold-start scan finds models[k]
    have hscrut : (if r.1.config.coldStartRound then
        r.1.models.find? (fun m => r.1.N m == 0) else none) = some (models.get ⟨k, hk⟩) := by
      rw [hconfig, hcs, if_pos rfl, hmodels]
      rw [findq_congr _ (fun m => decide (m ∉ models.take k)) models
        (fun x _ => by
          rw [hNall x]
          by_cases hxm : x ∈ models.take k <;> simp [hxm])]
      exact find?_first_unvisited k models hk hnd
    -- evaluate the choose step
    have hchoose : Mab.ChooseArm r.1 (times k) =
        Mab.registerDecision { r.1 with T := r.1.T + 1 } (models.get ⟨k, hk⟩) (times k) := by
      unfold Mab.ChooseArm
      rw [if_neg hnr, hscrut]
    have hstep : runCycles times outs (Mab.InitBandit models cfg rf rn) (k + 1) =
        (Mab.UpdateOutcome (Mab.ChooseArm r.1 (times k)).1 (Mab.ChooseArm r.1 (times k)).2.1
            (outs k).1 (outs k).2.1 (outs k).2.2,
          r.2 ++ [(r.1.hasLast && decide (times k < r.1.lastDecision.cooldownUntil),
            (Mab.ChooseArm r.1 (times k)).2.2)]) := by
      rw [runCycles]
    rw [hchoose] at hstep
    have hcdzero : r.1.config.cooldownWindows * r.1.config.decisionPeriod = 0 := by
      rw [hconfig, hcw, Nat.zero_mul]
    have hid : (Mab.registerDecision { r.1 with T := r.1.T + 1 }
        (models.get ⟨k, hk⟩) (times k)).2.1 = decisionID (times k) := rfl
    have hch2 : (Mab.registerDecision { r.1 with T := r.1.T + 1 }
        (models.get ⟨k, hk⟩) (times k)).2.2 = models.get ⟨k, hk⟩ := rfl
    rw [hid, hch2] at hstep
    set s1 := (Mab.registerDecision { r.1 with T := r.1.T + 1 }
        (models.get ⟨k, hk⟩) (times k)).1 with hs1
    have hs1T : s1.T = r.1.T + 1 := rfl
    have hs1config : s1.config = r.1.config := rfl
    have hs1models : s1.models = r.1.models := rfl
    have hs1hasLast : s1.hasLast = true := rfl
    have hs1N : s1.N = r.1.N := rfl
    have hs1last : s1.lastDecision =
        ⟨decisionID (times k), models.get ⟨k, hk⟩, times k,
          times k + r.1.config.cooldownWindows * r.1.config.decisionPeriod⟩ := rfl
    have hs1pend : s1.pending =
        [(decisionID (times k),
          ⟨decisionID (times k), models.get ⟨k, hk⟩, times k,
            times k + r.1.config.cooldownWindows * r.1.config.decisionPeriod⟩)] := by
      rw [hs1]
      dsimp only [Mab.registerDecision]
      rw [hpend]
      rfl
    obtain ⟨cpend, cN, cT, cmodels, cconfig, chasLast, clast⟩ :=
      updateOutcome_singleton s1 (decisionID (times k)) _
        (outs k).1 (outs k).2.1 (outs k).2.2 hs1pend
    rw [hstep]
    have hgetmem : models.get ⟨k, hk⟩ ∈ models.take (k + 1) := by
      rw [List.take_succ, List.getElem?_eq_getElem hk]
      exact List.mem_append.mpr (Or.inr (by simp))
    refine ⟨?_, ?_, ?_, ?_, ?_, cpend, ?_, by omega, ?_⟩
    · rw [List.map_append, hlog, List.take_succ, List.getElem?_eq_getElem hk]
      rfl
    · intro e he
      rcases List.mem_append.mp he with he' | he'
      · exact hflags e he'
      · rw [List.mem_singleton.mp he', hflag]
    · rw [cT, hs1T, hTk]
    · rw [cconfig, hs1config, hconfig]
    · rw [cmodels, hs1models, hmodels]
    · intro m
      rw [cN]
      dsimp only
      rw [hs1N]
      by_cases hm : m = models.get ⟨k, hk⟩
      · rw [if_pos hm, hNall m, hm, if_neg (get_not_mem_take hnd k hk),
          if_pos (hm ▸ hgetmem)]
      · rw [if_neg hm, hNall m]
        have hiff : (m ∈ models.take (k + 1)) ↔ (m ∈ models.take k) := by
          rw [List.take_succ, List.getElem?_eq_getElem hk]
          constructor
          · intro hmem
            rcases List.mem_append.mp hmem with h' | h'
            · exact h'
            · exact absurd (by simpa using h') hm
          · intro hmem
            exact List.mem_append.mpr (Or.inl hmem)
        by_cases hmk : m ∈ models.take k
        · rw [if_pos hmk, if_pos (hiff.mpr hmk)]
        · rw [if_neg hmk, if_neg (fun hc => hmk (hiff.mp hc))]
    · intro _
      refine ⟨by rw [chasLast, hs1hasLast], ?_⟩
      rw [clast, hs1last]
      dsimp only
      rw [hcdzero]
      simp

/-- C4: with cold start enabled and no cooldown reuse in effect
(`CooldownWindows = 0`, non-decreasing call times), the first `|catalog|`
completed choose/close cycles return every catalog model exactly once, in
catalog order — each call choosing the first model with visit count 0 —
before any model repeats, and each such call increments `T` by 1 (after `j`
of them, `T = j`). -/
theorem coldStart_first_cycles (models : List String) (cfg : BanditSelectorConfig)
    (rf : ℕ → ℚ) (rn : ℕ → ℕ) (times : ℕ → ℕ) (outs : ℕ → ℚ × ℚ × ℚ)
    (hnd : models.Nodup) (hcs : cfg.coldStartRound = true)
    (hcw : cfg.cooldownWindows = 0) (hmono : ∀ i, times i ≤ times (i + 1)) :
    ∀ k, k ≤ models.length →
      (runCycles times outs (Mab.InitBandit models cfg rf rn) k).2.map Prod.snd =
        models.take k ∧
      (∀ e ∈ (runCycles times outs (Mab.InitBandit models cfg rf rn) k).2, e.1 = false) ∧
      (runCycles times outs (Mab.InitBandit models cfg rf rn) k).1.T = k := by
  intro k hk
  obtain ⟨h1, h2, h3, -⟩ :=
    coldStart_invariant models cfg rf rn times outs hnd hcs hcw hmono k hk
  exact ⟨h1, h2, h3⟩

/-- A no-cooldown cold-start configuration for the C4 witness. -/
def exColdCfg : BanditSelectorConfig := { exCfg with cooldownWindows := 0 }

/-- Witness for C4: three models, three cycles, chosen in catalog order with
`T` ending at 3 and no reuse. -/
theorem coldStart_first_cycles_witness :
    (runCycles (fun i => i) (fun _ => (100, 0, 0))
        (Mab.InitBandit ["A", "B", "C"] exColdCfg (fun _ => 0) (fun _ => 0)) 3).2.map
      Prod.snd = ["A", "B", "C"].take 3 ∧
    (∀ e ∈ (runCycles (fun i => i) (fun _ => (100, 0, 0))
        (Mab.InitBandit ["A", "B", "C"] exColdCfg (fun _ => 0) (fun _ => 0)) 3).2,
      e.1 = false) ∧
    (runCycles (fun i => i) (fun _ => (100, 0, 0))
        (Mab.InitBandit ["A", "B", "C"] exColdCfg (fun _ => 0) (fun _ => 0)) 3).1.T = 3 :=
  coldStart_first_cycles ["A", "B", "C"] exColdCfg (fun _ => 0) (fun _ => 0)
    (fun i => i) (fun _ => (100, 0, 0)) (by decide) rfl rfl
    (fun i => Nat.le_succ i) 3 (by decide)

/-! ## C8 and C10: the accuracy estimator -/

/-- RMSE as the spec writes it:
`sqrt((1/W)·Σ (predicted[i] − actual[i])²)` over the trailing window of
length `W` ending at the latest observation. -/
noncomputable def specRMSE (pred : List ℚ) (input : List ℤ) (W : ℕ) : ℝ :=
  Real.sqrt ((1 / (W : ℝ)) *
    ((((List.range W).map (fun j =>
      (pred.getD (input.length - W + j) 0 -
        (input.getD (input.length - W + j) 0 : ℚ)) ^ 2)).sum : ℚ) : ℝ))

theorem sumSqErr_eq_some (pred : List ℚ) (input : List ℤ) :
    ∀ is : List ℤ,
      (∀ i ∈ is, 0 ≤ i ∧ i.toNat < pred.length ∧ i.toNat < input.length) →
      Prediction.sumSqErr pred input is =
        some ((is.map (fun i =>
          (pred.getD i.toNat 0 - (input.getD i.toNat 0 : ℚ)) ^ 2)).sum) := by
  intro is
  induction is with
  | nil => intro _; rfl
  | cons i rest ih =>
    intro h
    obtain ⟨h0, hp, hi⟩ := h i (List.mem_cons_self i rest)
    have hgp : Prediction.getZ? pred i = some (pred.getD i.toNat 0) := by
      unfold Prediction.getZ?
      rw [if_neg (not_lt.mpr h0), List.getElem?_eq_getElem hp, List.getD_eq_getElem pred 0 hp]
    have hgi : Prediction.getZ? input i = some (input.getD i.toNat 0) := by
      unfold Prediction.getZ?
      rw [if_neg (not_lt.mpr h0), List.getElem?_eq_getElem hi, List.getD_eq_getElem input 0 hi]
    unfold Prediction.sumSqErr
    rw [hgp, hgi, ih (fun x hx => h x (List.mem_cons_of_mem i hx))]
    simp

theorem sumSqErr_none_of_mem (pred : List ℚ) (input : List ℤ) :
    ∀ is : List ℤ,
      (∃ i ∈ is, Prediction.getZ? pred i = none ∨ Prediction.getZ? input i = none) →
      Prediction.sumSqErr pred input is = none := by
  intro is
  induction is with
  | nil =>
    intro h
    obtain ⟨i, hi, -⟩ := h
    simp at hi
  | cons i rest ih =>
    intro h
    obtain ⟨j, hj, hfail⟩ := h
    unfold Prediction.sumSqErr
    rcases List.mem_cons.mp hj with rfl | hj'
    · rcases hfail with hf | hf
      · rw [hf]
      · rw [hf]
        cases Prediction.getZ? pred j <;> rfl
    · cases hgp : Prediction.getZ? pred i with
      | none => rfl
      | some p =>
        cases hgi : Prediction.getZ? input i with
        | none => rfl
        | some a =>
          rw [ih ⟨j, hj', hfail⟩]
          rfl

/-- Index membership in the RMSE window. -/
theorem mem_errWindow (inputLen W : ℕ) (i : ℤ) :
    i ∈ Prediction.errWindow inputLen W ↔
      ∃ j : ℕ, j < W ∧ i = (inputLen : ℤ) - (W : ℤ) + (j : ℤ) := by
  unfold Prediction.errWindow
  constructor
  · intro hm
    obtain ⟨j, hj, rfl⟩ := List.mem_map.mp hm
    exact ⟨j, List.mem_range.mp hj, rfl⟩
  · intro ⟨j, hj, heq⟩
    exact List.mem_map.mpr ⟨j, List.mem_range.mpr hj, heq.symm⟩

/-- In-bounds evaluation of `calculateError`: with enough history and long
enough buffers, every model gets exactly the spec's RMSE. -/
theorem calculateError_eq_some (input : List ℤ) (W : ℕ) (hW : W ≤ input.length) :
    ∀ preds : List Prediction.PredictionInput,
      (∀ p ∈ preds, input.length ≤ p.predictedInput.length) →
      Prediction.calculateError preds input W =
        some (preds.map (fun p =>
          { p with errorEstimation := specRMSE p.predictedInput input W })) := by
  intro preds
  induction preds with
  | nil => intro _; rfl
  | cons p rest ih =>
    intro hbuf
    have hpb : input.length ≤ p.predictedInput.length :=
      hbuf p (List.mem_cons_self p rest)
    have hsum : Prediction.sumSqErr p.predictedInput input
        (Prediction.errWindow input.length W) =
        some (((Prediction.errWindow input.length W).map (fun i =>
          (p.predictedInput.getD i.toNat 0 - (input.getD i.toNat 0 : ℚ)) ^ 2)).sum) := by
      apply sumSqErr_eq_some
      intro i hi
      obtain ⟨j, hj, rfl⟩ := (mem_errWindow input.length W i).mp hi
      refine ⟨by omega, by omega, by omega⟩
    have hwin : ((Prediction.errWindow input.length W).map (fun i =>
        (p.predictedInput.getD i.toNat 0 - (input.getD i.toNat 0 : ℚ)) ^ 2)).sum =
        ((List.range W).map (fun j =>
          (p.predictedInput.getD (input.length - W + j) 0 -
            (input.getD (input.length - W + j) 0 : ℚ)) ^ 2)).sum := by
      unfold Prediction.errWindow
      rw [List.map_map]
      congr 1
      apply List.map_congr_left
      intro j hj
      have hjW : j < W := List.mem_range.mp hj
      have htn : ((input.length : ℤ) - (W : ℤ) + (j : ℤ)).toNat = input.length - W + j := by
        omega
      simp only [Function.comp]
      rw [htn]
    unfold Prediction.calculateError
    rw [hsum, hwin, ih (fun q hq => hbuf q (List.mem_cons_of_mem p hq))]
    have hsqrt : Real.sqrt
        ((((List.range W).map (fun j =>
          (p.predictedInput.getD (input.length - W + j) 0 -
            (input.getD (input.length - W + j) 0 : ℚ)) ^ 2)).sum : ℚ) / (W : ℝ)) =
        specRMSE p.predictedInput input W := by
      unfold specRMSE
      rw [one_div, inv_mul_eq_div]
    dsimp only
    rw [List.map_cons, hsqrt]

/-- A failing model propagates the panic through `calculateError`. -/
theorem calculateError_none_of_mem (input : List ℤ) (W : ℕ) :
    ∀ preds : List Prediction.PredictionInput,
      (∃ p ∈ preds, Prediction.sumSqErr p.predictedInput input
        (Prediction.errWindow input.length W) = none) →
      Prediction.calculateError preds input W = none := by
  intro preds
  induction preds with
  | nil =>
    intro h
    obtain ⟨p, hp, -⟩ := h
    simp at hp
  | cons p rest ih =>
    intro h
    obtain ⟨q, hq, hfail⟩ := h
    unfold Prediction.calculateError
    rcases List.mem_cons.mp hq with rfl | hq'
    · rw [hfail]
    · cases hs : Prediction.sumSqErr p.predictedInput input
          (Prediction.errWindow input.length W) with
      | none => rfl
      | some e =>
        rw [ih ⟨q, hq', hfail⟩]

/-- The argmin scan of `DeterminatePredictor` keeps the seed or returns the
first strictly smaller error. -/
theorem minErrFrom_spec :
    ∀ (l : List Prediction.PredictionInput) (b : ℝ) (idx i : ℕ),
      (Prediction.minErrFrom b idx i l = (b, idx) ∧
        ∀ p ∈ l, b ≤ p.errorEstimation) ∨
      (∃ j, ∃ h : j < l.length,
        Prediction.minErrFrom b idx i l = ((l.get ⟨j, h⟩).errorEstimation, i + j) ∧
        (l.get ⟨j, h⟩).errorEstimation < b ∧
        (∀ p ∈ l, (l.get ⟨j, h⟩).errorEstimation ≤ p.errorEstimation) ∧
        ∀ j', ∀ hj' : j' < j,
          (l.get ⟨j, h⟩).errorEstimation <
            (l.get ⟨j', Nat.lt_trans hj' h⟩).errorEstimation) := by
  intro l
  induction l with
  | nil =>
    intro b idx i
    left
    exact ⟨rfl, by simp⟩
  | cons p rest ih =>
    intro b idx i
    by_cases hlt : p.errorEstimation < b
    · rcases ih p.errorEstimation i (i + 1) with ⟨heq, hall⟩ | ⟨j, hj, heq, hbig, hall, hfirst⟩
      · right
        refine ⟨0, by simp, ?_, hlt, ?_, ?_⟩
        · simpa [Prediction.minErrFrom, hlt] using heq
        · intro x hx
          rcases List.mem_cons.mp hx with rfl | hx
          · simp
          · simpa using hall x hx
        · intro j' hj'; omega
      · right
        refine ⟨j + 1, by simpa using Nat.succ_lt_succ hj, ?_, ?_, ?_, ?_⟩
        · have hidx : i + 1 + j = i + (j + 1) := by omega
          rw [hidx] at heq
          simpa [Prediction.minErrFrom, hlt] using heq
        · exact lt_trans (by simpa using hbig) hlt
        · intro x hx
          rcases List.mem_cons.mp hx with rfl | hx
          · exact le_of_lt (by simpa using hbig)
          · simpa using hall x hx
        · intro j' hj'
          match j', hj' with
          | 0, _ => simpa using hbig
          | j'' + 1, hj' =>
            have := hfirst j'' (by omega)
            simpa using this
    · rcases ih b idx (i + 1) with ⟨heq, hall⟩ | ⟨j, hj, heq, hbig, hall, hfirst⟩
      · left
        refine ⟨by simpa [Prediction.minErrFrom, hlt] using heq, ?_⟩
        intro x hx
        rcases List.mem_cons.mp hx with rfl | hx
        · exact le_of_not_lt hlt
        · exact hall x hx
      · right
        refine ⟨j + 1, by simpa using Nat.succ_lt_succ hj, ?_, ?_, ?_, ?_⟩
        · have hidx : i + 1 + j = i + (j + 1) := by omega
          rw [hidx] at heq
          simpa [Prediction.minErrFrom, hlt] using heq
        · simpa using hbig
        · intro x hx
          rcases List.mem_cons.mp hx with rfl | hx
          · exact le_trans (le_of_lt (by simpa using hbig)) (le_of_not_lt hlt)
          · simpa using hall x hx
        · intro j' hj'
          match j', hj' with
          | 0, _ =>
            exact lt_of_lt_of_le (by simpa using hbig) (le_of_not_lt hlt)
          | j'' + 1, hj' =>
            have := hfirst j'' (by omega)
            simpa using this

/-- C8: under the `"rmse"` selection policy with more than one model, the
estimator writes `RMSE(m) = sqrt((1/W)·Σ(predicted_m[i] − actual[i])²)` over
the trailing window of length `W = analyze_samples + prediction_number` into
every model, and selects the model of minimum RMSE, the first (lowest-index)
such model winning via the strict less-than scan. -/
theorem determinatePredictor_rmse_argmin (dataset : String)
    (analyzeSamples predictionNumber : ℕ) (randValue : ℚ)
    (preds : List Prediction.PredictionInput) (input : List ℤ)
    (hlen : 1 < preds.length)
    (hW : analyzeSamples + predictionNumber ≤ input.length)
    (hbuf : ∀ p ∈ preds, input.length ≤ p.predictedInput.length) :
    ∃ i, ∃ hi : i < preds.length,
      Prediction.DeterminatePredictor "rmse" dataset analyzeSamples predictionNumber
          randValue preds input =
        some (i, preds.map (fun p =>
          { p with errorEstimation :=
              specRMSE p.predictedInput input (analyzeSamples + predictionNumber) })) ∧
      (∀ p ∈ preds,
        specRMSE (preds.get ⟨i, hi⟩).predictedInput input
            (analyzeSamples + predictionNumber) ≤
          specRMSE p.predictedInput input (analyzeSamples + predictionNumber)) ∧
      (∀ j, ∀ hj : j < i,
        specRMSE (preds.get ⟨i, hi⟩).predictedInput input
            (analyzeSamples + predictionNumber) <
          specRMSE (preds.get ⟨j, Nat.lt_trans hj hi⟩).predictedInput input
            (analyzeSamples + predictionNumber)) := by
  cases preds with
  | nil => simp at hlen
  | cons p0 rest =>
    unfold Prediction.DeterminatePredictor
    rw [if_neg (by omega), if_pos rfl,
      calculateError_eq_some input _ hW _ hbuf]
    rw [List.map_cons]
    dsimp only
    rcases minErrFrom_spec (rest.map (fun p =>
        { p with errorEstimation :=
            specRMSE p.predictedInput input (analyzeSamples + predictionNumber) }))
        (specRMSE p0.predictedInput input (analyzeSamples + predictionNumber)) 0 1 with
      ⟨heq, hall⟩ | ⟨j, hj, heq, hbig, hall, hfirst⟩
    · refine ⟨0, by simp, ?_, ?_, ?_⟩
      · rw [heq]
      · intro q hq
        rcases List.mem_cons.mp hq with rfl | hq
        · simp
        · simpa using hall _ (List.mem_map_of_mem _ hq)
      · intro j' hj'; omega
    · have hjlen : j < rest.length := by simpa using hj
      have hget : (rest.map (fun p =>
          { p with errorEstimation :=
              specRMSE p.predictedInput input (analyzeSamples + predictionNumber) })).get
            ⟨j, hj⟩ =
          ⟨(rest.get ⟨j, hjlen⟩).nameModel, (rest.get ⟨j, hjlen⟩).predictedInput,
            specRMSE (rest.get ⟨j, hjlen⟩).predictedInput input
              (analyzeSamples + predictionNumber)⟩ := by
        simp [List.get_map]
      refine ⟨j + 1, by simpa using Nat.succ_lt_succ hjlen, ?_, ?_, ?_⟩
      · rw [heq, hget]
        dsimp only
        rw [Nat.add_comm 1 j]
      · intro q hq
        rw [hget] at hall
        rcases List.mem_cons.mp hq with rfl | hq
        · rw [hget] at hbig
          exact le_of_lt (by simpa using hbig)
        · have := hall _ (List.mem_map_of_mem (fun p =>
            { p with errorEstimation :=
                specRMSE p.predictedInput input (analyzeSamples + predictionNumber) }) hq)
          simpa using this
      · intro j' hj'
        match j', hj' with
        | 0, _ =>
          rw [hget] at hbig
          simpa using hbig
        | j'' + 1, hj' =>
          have := hfirst j'' (by omega)
          rw [hget, List.get_map] at this
          simpa using this

/-- C10 (amended): with at least one model configured and a positive window,
`calculateError` stays in bounds (returns RMSEs rather than panicking)
exactly when the observed history is at least `W` long and every model's
forecast buffer is at least as long as the history. -/
theorem calculateError_isSome_iff (preds : List Prediction.PredictionInput)
    (input : List ℤ) (W : ℕ) (hne : preds ≠ []) (hW1 : 1 ≤ W) :
    (Prediction.calculateError preds input W).isSome = true ↔
      (W ≤ input.length ∧ ∀ p ∈ preds, input.length ≤ p.predictedInput.length) := by
  constructor
  · intro hsome
    by_contra hcon
    rcases not_and_or.mp hcon with hA | hB
    · have hnone : Prediction.calculateError preds input W = none := by
        apply calculateError_none_of_mem
        cases preds with
        | nil => exact absurd rfl hne
        | cons p rest =>
          refine ⟨p, List.mem_cons_self p rest, ?_⟩
          apply sumSqErr_none_of_mem
          refine ⟨(input.length : ℤ) - (W : ℤ), ?_, Or.inl ?_⟩
          · exact (mem_errWindow input.length W _).mpr ⟨0, hW1, by omega⟩
          · unfold Prediction.getZ?
            rw [if_pos (by omega)]
      rw [hnone] at hsome
      simp at hsome
    · push_neg at hB
      obtain ⟨p, hp, hplen⟩ := hB
      have hL1 : 1 ≤ input.length := by omega
      have hnone : Prediction.calculateError preds input W = none := by
        apply calculateError_none_of_mem
        refine ⟨p, hp, ?_⟩
        apply sumSqErr_none_of_mem
        refine ⟨(input.length : ℤ) - 1, ?_, Or.inl ?_⟩
        · refine (mem_errWindow input.length W _).mpr ⟨W - 1, by omega, by omega⟩
        · unfold Prediction.getZ?
          rw [if_neg (by omega), List.getElem?_eq_none (by omega)]
      rw [hnone] at hsome
      simp at hsome
  · intro ⟨hA, hB⟩
    rw [calculateError_eq_some input W hA preds hB]
    rfl

/-- C10 counterexample: two concrete inputs where the claim's stated
precondition fails and yet `calculateError` performs no out-of-range access:
an empty model catalog with too-short history (`W = 1 > 0 = len(input)`),
and a window `W = 0` (`analyze_samples = prediction_number = 0`) with a
buffer shorter than the history. -/
theorem calculateError_no_panic_counterexample :
    (Prediction.calculateError [] [] 1).isSome = true ∧
    ¬(1 ≤ ([] : List ℤ).length) ∧
    (Prediction.calculateError [⟨"basic", [], 0⟩] [5] 0).isSome = true ∧
    ¬(([5] : List ℤ).length ≤
      (Prediction.PredictionInput.mk "basic" [] 0).predictedInput.length) :=
  ⟨rfl, by decide, rfl, by decide⟩

/-- Witness for the amended C10 at concrete inputs: one model, `W = 1`,
history `[3]`, buffer `[5]` — in bounds on both sides of the iff. -/
theorem calculateError_isSome_iff_witness :
    ((Prediction.calculateError [⟨"m", [5], 0⟩] [3] 1).isSome = true ↔
      (1 ≤ ([3] : List ℤ).length ∧
        ∀ p ∈ [(⟨"m", [5], 0⟩ : Prediction.PredictionInput)],
          ([3] : List ℤ).length ≤ p.predictedInput.length)) :=
  calculateError_isSome_iff [⟨"m", [5], 0⟩] [3] 1 (by simp) (by decide)

/-- Witness for C8 at concrete inputs: two models, `W = 1`, history `[3]`,
buffers `[5]` and `[3]` (RMSEs 2 and 0, the second model wins). -/
theorem determinatePredictor_rmse_argmin_witness :
    ∃ i, ∃ hi : i < ([⟨"a", [5], 0⟩, ⟨"b", [3], 0⟩] :
        List Prediction.PredictionInput).length,
      Prediction.DeterminatePredictor "rmse" "sbac" 1 0 0
          [⟨"a", [5], 0⟩, ⟨"b", [3], 0⟩] [3] =
        some (i, ([⟨"a", [5], 0⟩, ⟨"b", [3], 0⟩] :
            List Prediction.PredictionInput).map (fun p =>
          { p with errorEstimation := specRMSE p.predictedInput [3] (1 + 0) })) ∧
      (∀ p ∈ ([⟨"a", [5], 0⟩, ⟨"b", [3], 0⟩] : List Prediction.PredictionInput),
        specRMSE (([⟨"a", [5], 0⟩, ⟨"b", [3], 0⟩] :
            List Prediction.PredictionInput).get ⟨i, hi⟩).predictedInput [3] (1 + 0) ≤
          specRMSE p.predictedInput [3] (1 + 0)) ∧
      (∀ j, ∀ hj : j < i,
        specRMSE (([⟨"a", [5], 0⟩, ⟨"b", [3], 0⟩] :
            List Prediction.PredictionInput).get ⟨i, hi⟩).predictedInput [3] (1 + 0) <
          specRMSE (([⟨"a", [5], 0⟩, ⟨"b", [3], 0⟩] :
            List Prediction.PredictionInput).get
              ⟨j, Nat.lt_trans hj hi⟩).predictedInput [3] (1 + 0)) :=
  determinatePredictor_rmse_argmin "sbac" 1 0 0 [⟨"a", [5], 0⟩, ⟨"b", [3], 0⟩] [3]
    (by simp) (by decide) (by simp)

/-! ## C9: the single-model bypass equals the multi-model path -/

/-- The forecast buffer of the model named `mn` (unique names in the
catalog), read off a predictions list. -/
def bufferOf (l : List Prediction.PredictionInput) (mn : String) : Option (List ℚ) :=
  (l.find? (fun p => p.nameModel == mn)).map Prediction.PredictionInput.predictedInput

theorem getPredictionInputOne_name (g : List ℚ → ℕ → String → List ℚ)
    (ps pn : ℕ) (topo : Prediction.Topology) (p : Prediction.PredictionInput) :
    (Prediction.getPredictionInputOne g ps pn topo p).nameModel = p.nameModel := by
  unfold Prediction.getPredictionInputOne
  dsimp only
  split <;> rfl

/-- C9: for every catalog model, running the prediction cycle with exactly
that one model configured produces, for that model, the same forecast-buffer
contents as the multi-model path restricted to that model (initial buffers
are equal, so equal appends give equal buffers). -/
theorem singleModel_matches_multi (modelName : String) (analyzeSamples : ℕ)
    (simple : Prediction.Topology → List ℚ)
    (getPrediction : List ℚ → ℕ → String → List ℚ)
    (predictionSamples predictionNumber : ℕ) (topology : Prediction.Topology)
    (hmem : modelName ∈ (Prediction.initCatalog analyzeSamples).map
      Prediction.PredictionInput.nameModel) :
    ∃ single multi,
      Prediction.PredictInput modelName simple getPrediction predictionSamples
          predictionNumber topology (Prediction.InitPrediction modelName analyzeSamples) =
        some single ∧
      Prediction.PredictInput "multi" simple getPrediction predictionSamples
          predictionNumber topology (Prediction.InitPrediction "multi" analyzeSamples) =
        some multi ∧
      (bufferOf single modelName).isSome = true ∧
      bufferOf single modelName = bufferOf multi modelName := by
  simp only [Prediction.initCatalog, List.map_cons, List.map_nil, List.mem_cons,
    List.not_mem_nil, or_false] at hmem
  rcases hmem with rfl | rfl | rfl | rfl | rfl | rfl | rfl | rfl | rfl <;>
    refine ⟨_, _, rfl, rfl, by
        simp [bufferOf, Prediction.InitPrediction, Prediction.initCatalog,
          Prediction.PredictInput, getPredictionInputOne_name], by
        simp [bufferOf, Prediction.InitPrediction, Prediction.initCatalog,
          Prediction.PredictInput, getPredictionInputOne_name]⟩

/-- Witness for C9 at concrete inputs: model `"fft"`, concrete oracles and a
concrete topology. -/
theorem singleModel_matches_multi_witness :
    ∃ single multi,
      Prediction.PredictInput "fft" (fun _ => [1]) (fun _ _ _ => [2]) 1 1 ⟨[4]⟩
          (Prediction.InitPrediction "fft" 2) = some single ∧
      Prediction.PredictInput "multi" (fun _ => [1]) (fun _ _ _ => [2]) 1 1 ⟨[4]⟩
          (Prediction.InitPrediction "multi" 2) = some multi ∧
      (bufferOf single "fft").isSome = true ∧
      bufferOf single "fft" = bufferOf multi "fft" :=
  singleModel_matches_multi "fft" 2 (fun _ => [1]) (fun _ _ _ => [2]) 1 1 ⟨[4]⟩
    (by simp [Prediction.initCatalog])

end SpsStorm
